import Mathlib

/-!
Verification of the pii_buddy redaction pipeline against its specification.

Texts are shallowly embedded as `List Char` (Python strings are sequences of
code points, and all operations used by the pipeline are per-code-point).
Python dicts are embedded as insertion-ordered association lists, matching
CPython's guaranteed iteration order; `dict[k] = v` updates in place when the
key exists and appends otherwise.  External collaborators (the spaCy NER
model and sentence segmenter, the blocklist files, the network client) are
parameters of the embedded functions, exactly along the interface the spec
declares for them.
-/

namespace PiiBuddy

/-- A Python string, as a sequence of code points. -/
abbrev Str := List Char

/-- Python `str.isspace` class for the characters relevant to `str.split`,
`str.strip` and friends (space, tab, newline, carriage return, vertical tab,
form feed). -/
def pySpace (c : Char) : Bool :=
  c = ' ' || c = '\t' || c = '\n' || c = '\r' || c = Char.ofNat 11 || c = Char.ofNat 12

/-- Helper for `splitWs`: accumulate the current word (reversed). -/
def splitWsAux : Str → Str → List Str
  | [], acc => if acc.isEmpty then [] else [acc.reverse]
  | c :: cs, acc =>
    if pySpace c then
      if acc.isEmpty then splitWsAux cs [] else acc.reverse :: splitWsAux cs []
    else splitWsAux cs (c :: acc)

/-- Python `str.split()` with no argument: split on runs of whitespace,
producing no empty words. -/
def splitWs (s : Str) : List Str := splitWsAux s []

/-- Python `str.lower()` (ASCII range, which is all the pipeline relies on). -/
def lowerStr (s : Str) : Str := s.map Char.toLower

/-- Python `str.strip()`. -/
def pyStrip (s : Str) : Str :=
  ((s.dropWhile pySpace).reverse.dropWhile pySpace).reverse

/-- Python `str.lstrip()`. -/
def pyLstrip (s : Str) : Str := s.dropWhile pySpace

/-- Stable insertion of `x` after every element `y` with `le y x`;
folding this over a list from the left gives exactly Python's stable sort. -/
def insertStable (le : α → α → Bool) (x : α) : List α → List α
  | [] => [x]
  | y :: ys => if le y x then y :: insertStable le x ys else x :: y :: ys

/-- Python `sorted(l, ...)` where `le a b` says `a` may stay before `b`
(for `sorted(key=k)` take `le a b := k a ≤ k b`; for `reverse=True` take
`le a b := k b ≤ k a`; both keep equal keys in original order). -/
def stableSort (le : α → α → Bool) (l : List α) : List α :=
  l.foldl (fun acc x => insertStable le x acc) []

/-- Deduplication keeping the first occurrence of each element (the order in
which CPython iterates a `set` built from a list, as relied on by the
deterministic paths of the pipeline). -/
def dedupAux [DecidableEq α] : List α → List α → List α
  | [], _ => []
  | x :: xs, seen =>
    if seen.contains x then dedupAux xs seen else x :: dedupAux xs (x :: seen)

/-- First-occurrence deduplication. -/
def dedupFirst [DecidableEq α] (l : List α) : List α := dedupAux l []

/-- Python string comparison: lexicographic on code points. -/
def strLt : Str → Str → Bool
  | [], [] => false
  | [], _ :: _ => true
  | _ :: _, [] => false
  | a :: as, b :: bs =>
    if a.val < b.val then true else if b.val < a.val then false else strLt as bs

/-- Non-strict Python string order. -/
def strLe (a b : Str) : Bool := !(strLt b a)

/-- Python `sorted(set(l))` for strings: distinct elements in ascending
lexicographic order. -/
def sortedDedupAsc (l : List Str) : List Str := stableSort strLe (dedupFirst l)

/-- Dict lookup (first binding wins, as in an insertion-ordered dict where
keys are unique). -/
def dictGet (d : List (Str × α)) (k : Str) : Option α :=
  (d.find? (fun p => p.1 = k)).map (·.2)

/-- Python `k in d`. -/
def dictContains (d : List (Str × α)) (k : Str) : Bool :=
  (d.find? (fun p => p.1 = k)).isSome

/-- Python `d[k] = v`: update in place if present, append otherwise. -/
def dictSet (d : List (Str × α)) (k : Str) (v : α) : List (Str × α) :=
  if dictContains d k then d.map (fun p => if p.1 = k then (k, v) else p)
  else d ++ [(k, v)]

/-- Python `d.keys()`. -/
def dictKeys (d : List (Str × α)) : List Str := d.map (·.1)

/-- Python `d.values()`. -/
def dictValues (d : List (Str × α)) : List α := d.map (·.2)

/-- Read of a `collections.defaultdict(int)`. -/
def cntGet (d : List (Str × Nat)) (k : Str) : Nat := (dictGet d k).getD 0

/-- Increment `d[k] += 1` on a `defaultdict(int)`. -/
def cntIncr (d : List (Str × Nat)) (k : Str) : List (Str × Nat) :=
  dictSet d k (cntGet d k + 1)

/-- The decimal digit characters. -/
def digitChar (d : Nat) : Char := ['0', '1', '2', '3', '4', '5', '6', '7', '8', '9'].getD d '0'

/-- Fuel-driven decimal rendering (most significant digit first). -/
def natStrAux : Nat → Nat → Str
  | 0, _ => []
  | fuel + 1, n =>
    if n < 10 then [digitChar n]
    else natStrAux fuel (n / 10) ++ [digitChar (n % 10)]

/-- Decimal rendering of a number, as Python string formatting produces. -/
def natStr (n : Nat) : Str := natStrAux (n + 1) n

/-- Python `needle in hay` on strings (contiguous substring). -/
def strContains (hay needle : Str) : Bool :=
  match hay with
  | [] => needle.isEmpty
  | c :: cs => needle.isPrefixOf (c :: cs) || strContains cs needle

/-- Fuel-driven core of Python `str.replace`: leftmost, non-overlapping. -/
def replaceFuel (pat rep : Str) : Nat → Str → Str
  | 0, s => s
  | fuel + 1, s =>
    if pat ≠ [] ∧ pat.isPrefixOf s then
      rep ++ replaceFuel pat rep fuel (s.drop pat.length)
    else
      match s with
      | [] => []
      | c :: cs => c :: replaceFuel pat rep fuel cs

/-- Python `s.replace(pat, rep)` (all occurrences, left to right). -/
def pyReplace (s pat rep : Str) : Str := replaceFuel pat rep s.length s

/-- Fuel-driven core of `re.sub(re.escape(pat), rep, s, flags=IGNORECASE)`:
leftmost, non-overlapping, matching the literal pattern case-insensitively. -/
def replaceCIFuel (patLower rep : Str) : Nat → Str → Str
  | 0, s => s
  | fuel + 1, s =>
    if patLower ≠ [] ∧ lowerStr (s.take patLower.length) = patLower then
      rep ++ replaceCIFuel patLower rep fuel (s.drop patLower.length)
    else
      match s with
      | [] => []
      | c :: cs => c :: replaceCIFuel patLower rep fuel cs

/-- Case-insensitive global literal replacement, as the redactor, auditor and
verifier perform with `re.compile(re.escape(x), re.IGNORECASE).sub(tag, t)`. -/
def replaceCI (s pat rep : Str) : Str := replaceCIFuel (lowerStr pat) rep s.length s

/-- A detected PII candidate (detector.PIIEntity): literal text, label, and
half-open code-point offsets.  The Python dataclass carries no confidence
field at detection time. -/
structure Entity where
  text : Str
  label : Str
  start : Nat
  stop : Nat
deriving DecidableEq

/-- The reversible mapping (redactor.redact output): `tags` maps tag literal
to original literal, `persons` maps every observed person surface form to its
cluster tag. -/
structure Mapping where
  tags : List (Str × Str)
  persons : List (Str × Str)
deriving DecidableEq

/-- redactor._make_initials: first character of each whitespace-separated
token, uppercased and concatenated. -/
def makeInitials (name : Str) : Str :=
  (splitWs name).filterMap (fun p => p.head?.map Char.toUpper)

/-- redactor._group_names: sort the distinct person surface forms by
descending length and assign each either to the first already-placed longer
canonical of which it is a (case-insensitive) token, or to itself. -/
def groupNames (personTexts : List Str) : List (Str × Str) :=
  let names := stableSort (fun a b => decide (b.length ≤ a.length)) (dedupFirst personTexts)
  names.foldl
    (fun canonical name =>
      if dictContains canonical name then canonical
      else
        match (dictValues canonical).find?
            (fun full => (splitWs (lowerStr full)).contains (lowerStr name)) with
        | some full => canonical ++ [(name, full)]
        | none => canonical ++ [(name, name)])
    []

/-- Person-cluster tag assignment (redactor.redact, collision counter over
canonical names in ascending lexicographic order). -/
def canonicalToTag (canonicals : List Str) : List (Str × Str) :=
  (canonicals.foldl
    (fun (acc : List (Str × Nat) × List (Str × Str)) cname =>
      let initials := makeInitials cname
      let cnt := cntIncr acc.1 initials
      let n := cntGet cnt initials
      let tag :=
        if n > 1 then "<<".data ++ initials ++ natStr n ++ ">>".data
        else "<<".data ++ initials ++ ">>".data
      (cnt, acc.2 ++ [(cname, tag)]))
    ([], [])).2

/-- Non-person value tag assignment (redactor.redact, per-label counter,
first occurrence of each literal value wins). -/
def valueToTag (otherEntities : List Entity) : List (Str × Str) :=
  (otherEntities.foldl
    (fun (acc : List (Str × Nat) × List (Str × Str)) e =>
      if dictContains acc.2 e.text then acc
      else
        let cnt := cntIncr acc.1 e.label
        let n := cntGet cnt e.label
        (cnt, acc.2 ++ [(e.text, "<<".data ++ e.label ++ "_".data ++ natStr n ++ ">>".data)]))
    ([], [])).2

/-- redactor.redact: span substitution in descending start order, then a
global case-insensitive pass over person surface forms in descending length
order, and construction of the reversible mapping. -/
def redact (text : Str) (entities : List Entity) : Str × Mapping :=
  let personEntities := entities.filter (fun e => e.label = "PERSON".data)
  let otherEntities := entities.filter (fun e => ¬ e.label = "PERSON".data)
  let nameGroups := groupNames (personEntities.map (·.text))
  let c2t := canonicalToTag (sortedDedupAsc (dictValues nameGroups))
  let surfaceToTag := nameGroups.map (fun p => (p.1, (dictGet c2t p.2).getD []))
  let v2t := valueToTag otherEntities
  let allSorted := stableSort (fun a b => decide (b.start ≤ a.start)) entities
  let redacted := allSorted.foldl
    (fun t e =>
      let tag :=
        if e.label = "PERSON".data then
          (dictGet surfaceToTag e.text).getD ("<<".data ++ makeInitials e.text ++ ">>".data)
        else
          (dictGet v2t e.text).getD ("<<".data ++ e.label ++ ">>".data)
      t.take e.start ++ tag ++ t.drop e.stop)
    text
  let surfacesByLen :=
    stableSort (fun a b => decide (b.length ≤ a.length)) (dictKeys surfaceToTag)
  let redacted := surfacesByLen.foldl
    (fun t s => replaceCI t s ((dictGet surfaceToTag s).getD [])) redacted
  let tagToOriginal := surfaceToTag.foldl
    (fun acc p => dictSet acc p.2 ((dictGet nameGroups p.1).getD [])) []
  let tagToOriginal := v2t.foldl (fun acc p => dictSet acc p.2 p.1) tagToOriginal
  (redacted, ⟨tagToOriginal, surfaceToTag⟩)

/-- restorer.restore: substitute each `(tag, original)` pair of `tags` back
into the text, longest tag first, by literal replacement.  (The Python
function additionally loads the mapping from a JSON file; the file I/O is
outside the core and elided, the function receives the `tags` dict.) -/
def restore (redactedText : Str) (tags : List (Str × Str)) : Str :=
  (stableSort (fun a b => decide (b.length ≤ a.length)) (dictKeys tags)).foldl
    (fun t tag => pyReplace t tag ((dictGet tags tag).getD [])) redactedText

/-- Removal of a trailing run of whitespace (the right half of Python
`str.strip`), in a directly recursive form. -/
def dropTrailingWs : Str → Str
  | [] => []
  | c :: cs =>
    match dropTrailingWs cs with
    | [] => if pySpace c then [] else [c]
    | r => c :: r

/-- Python `str.strip()`: drop leading and trailing whitespace. -/
def pyStripWs (s : Str) : Str := dropTrailingWs (s.dropWhile pySpace)

/-- Python `str.strip("<>")` as used on tag literals: drop leading and
trailing `<`/`>` characters. -/
def stripAngles (s : Str) : Str :=
  ((s.dropWhile (fun c => c = '<' || c = '>')).reverse.dropWhile
    (fun c => c = '<' || c = '>')).reverse

/-- Python `re.match(r"^[A-Z]+\d*$", inner)`: one or more ASCII capitals followed by
optional digits (the shape of a redactor person tag's interior). -/
def isPersonInner (s : Str) : Bool :=
  let letters := s.takeWhile Char.isUpper
  let rest := s.dropWhile Char.isUpper
  !letters.isEmpty && rest.all Char.isDigit

/-- Python `re.match(r"^([A-Z]+)_(\d+)$", inner)`: a typed tag interior, returning
the type name and digit string. -/
def typedInner (s : Str) : Option (Str × Str) :=
  let letters := s.takeWhile Char.isUpper
  match s.dropWhile Char.isUpper with
  | '_' :: ds =>
    if !letters.isEmpty && !ds.isEmpty && ds.all Char.isDigit then some (letters, ds)
    else none
  | _ => none

/-- sharder._letter_suffix: 0 → A, …, 25 → Z, 26 → AA, 27 → AB, …
(the Python code indexes a 26-letter table and is meaningful for n < 702;
out-of-range indexing is modelled with a default). -/
def letterSuffix (n : Nat) : Str :=
  let letters := "ABCDEFGHIJKLMNOPQRSTUVWXYZ".data
  if n < 26 then [letters.getD n 'A']
  else [letters.getD (n / 26 - 1) 'A', letters.getD (n % 26) 'A']

/-- sharder.neutralize_tags: classify each tag key by its bracket-stripped
interior (`[A-Z]+\d*` is a person tag, `TYPE_\d+` a typed tag; anything else
— notably the `<NAME …>` form the auditor and verifier introduce — is left
alone), build the neutralized reverse map in sorted order, and substitute
original tags by neutralized ones, longest original first. -/
def neutralizeTags (text : Str) (mapping : Mapping) : Str × List (Str × Str) :=
  let tagKeys := dictKeys mapping.tags
  let personTags := tagKeys.filter (fun tag => isPersonInner (stripAngles tag))
  let typedTags := tagKeys.foldl
    (fun (acc : List (Str × List Str)) tag =>
      if isPersonInner (stripAngles tag) then acc
      else
        match typedInner (stripAngles tag) with
        | some (ty, _) =>
          if dictContains acc ty then
            acc.map (fun p => if p.1 = ty then (p.1, p.2 ++ [tag]) else p)
          else acc ++ [(ty, [tag])]
        | none => acc)
    []
  let revMap : List (Str × Str) :=
    ((stableSort strLe personTags).enum.map
      (fun p => ("<<PERSON_".data ++ letterSuffix p.1 ++ ">>".data, p.2)))
    ++ (stableSort strLe (dictKeys typedTags)).foldl
      (fun acc ty =>
        acc ++ ((stableSort strLe ((dictGet typedTags ty).getD [])).enum.map
          (fun p => ("<<".data ++ ty ++ "_".data ++ letterSuffix p.1 ++ ">>".data, p.2))))
      []
  let ordered := stableSort (fun a b => decide (b.2.length ≤ a.2.length)) revMap
  (ordered.foldl (fun t p => pyReplace t p.2 p.1) text, revMap)

/-- A sentence-level shard (sharder.Shard).  The fresh UUID the Python code
draws for each shard is an opaque identifier no claim depends on; it is
elided from the embedding. -/
structure ShardM where
  text : Str
  start : Nat
  stop : Nat
deriving DecidableEq

/-- Python `remaining.rfind(" ", 0, limit)`: the greatest index below `limit`
holding a space character, if any (computed in one left-to-right pass, the
last hit winning). -/
def pyRfindSpace (s : Str) (limit : Nat) : Option Nat :=
  (s.take limit).enum.foldl (fun acc p => if p.2 = ' ' then some p.1 else acc) none

/-- The sharder's cap loop (sharder.shard_text, `while remaining:`): split an
over-long chunk at the rightmost space before position 800 (hard split at 800
when `rfind` returns -1 or 0), left-strip the tail and re-process it. -/
def capSplit : Nat → Str → Nat → List (Str × Nat × Nat)
  | 0, _, _ => []
  | fuel + 1, remaining, pos =>
    if remaining.isEmpty then []
    else if remaining.length ≤ 800 then [(remaining, pos, pos + remaining.length)]
    else
      let splitAt :=
        match pyRfindSpace remaining 800 with
        | none => 800
        | some k => if k = 0 then 800 else k
      (remaining.take splitAt, pos, pos + splitAt)
        :: capSplit fuel (pyLstrip (remaining.drop splitAt)) (pos + splitAt + 1)

/-- sharder.shard_text, with the external sentence segmenter's output
(`doc.sents` as (text, start_char, end_char) triples) as a parameter:
merge sentences with fewer than 5 whitespace-separated tokens into their
predecessor, cap chunks at 800 characters, strip each piece and drop the
empty ones. -/
def shardText (text : Str) (raw : List (Str × Nat × Nat)) : List ShardM :=
  match raw with
  | [] =>
    let stripped := pyStripWs text
    if stripped.isEmpty then [] else [⟨stripped, 0, text.length⟩]
  | _ :: _ =>
    let merged := raw.foldl
      (fun (acc : List (Str × Nat × Nat)) s =>
        match acc.getLast? with
        | some last =>
          if (splitWs s.1).length < 5 then
            acc.dropLast ++ [((text.take s.2.2).drop last.2.1, last.2.1, s.2.2)]
          else acc ++ [s]
        | none => [s])
      []
    let capped := merged.foldl
      (fun acc c =>
        acc ++ (if c.1.length ≤ 800 then [c] else capSplit c.1.length c.1 c.2.1))
      []
    capped.foldl
      (fun acc c =>
        acc ++
          (if (pyStripWs c.1).isEmpty then []
           else [(⟨pyStripWs c.1, c.2.1, c.2.2⟩ : ShardM)]))
      []

/-- A validated entity: the Python code assigns the dynamic `confidence`
attribute during validation; exact rationals stand in for the float
literals (all values compared in the claims are exactly representable). -/
structure ScoredEntity where
  text : Str
  label : Str
  start : Nat
  stop : Nat
  confidence : ℚ
deriving DecidableEq

/-- validation.validate_entities, with the PERSON scorer as a parameter
(validation.score_person_entity reads the blocklist files and the spaCy
POS-tagged document, both external collaborators): PERSON candidates are
kept iff their score reaches MIN_PERSON_CONFIDENCE = 0.6; every non-PERSON
candidate is kept with confidence set to 1.0. -/
def validateEntities (score : Entity → ℚ) : List Entity → List ScoredEntity
  | [] => []
  | e :: es =>
    if e.label = "PERSON".data then
      let c := score e
      if (3 / 5 : ℚ) ≤ c then
        ⟨e.text, e.label, e.start, e.stop, c⟩ :: validateEntities score es
      else validateEntities score es
    else ⟨e.text, e.label, e.start, e.stop, 1⟩ :: validateEntities score es

/-- A cloud verification finding (verify_client.Finding).  The confidence
and offsets it carries are never consulted by the patch step and are
elided. -/
structure FindingM where
  shardId : Str
  text : Str
  entityType : Str
deriving DecidableEq

/-- verify_client.VerifyError: the single categorized error class raised for
network failures, 4xx responses and exhausted 5xx retries (the message
distinguishes the categories). -/
structure VerifyErrorM where
  msg : Str
deriving DecidableEq

/-- verify_client.VerifyResponse; the usage counters are only logged and are
elided. -/
structure VerifyResponseM where
  findings : List FindingM
deriving DecidableEq

/-- Decimal digit string to number (Python `int`). -/
def digitsToNat (ds : Str) : Nat := ds.foldl (fun acc c => acc * 10 + (c.toNat - 48)) 0

/-- Python `re.match(r"^<NAME ([A-Z]+?)(\d+)?>$", tag)` as used by the auditor and
verifier to reconstruct the person-initials counters: returns the initials
and the collision number (1 when no digits are present). -/
def parseNameTag (tag : Str) : Option (Str × Nat) :=
  if "<NAME ".data.isPrefixOf tag then
    let rest := tag.drop 6
    let letters := rest.takeWhile Char.isUpper
    let afterLetters := rest.dropWhile Char.isUpper
    let digits := afterLetters.takeWhile Char.isDigit
    let afterDigits := afterLetters.dropWhile Char.isDigit
    if !letters.isEmpty && afterDigits = ['>'] then
      some (letters, if digits.isEmpty then 1 else digitsToNat digits)
    else none
  else none

/-- The counter-reconstruction loop shared by audit.audit_redacted and
verifier._apply_findings: scan existing tag keys, track the maximum
collision number per initials string (from `<NAME …>` keys) and — for the
verifier — the maximum N per type (from `<<TYPE_N>>` keys). -/
def reconstructCounters (tags : List (Str × Str)) : List (Str × Nat) × List (Str × Nat) :=
  tags.foldl
    (fun (acc : List (Str × Nat) × List (Str × Nat)) p =>
      match parseNameTag p.1 with
      | some (letters, n) =>
        (acc.1, dictSet acc.2 letters (max (cntGet acc.2 letters) n))
      | none =>
        match typedInner (stripAngles p.1) with
        | some (ty, ds) =>
          (dictSet acc.1 ty (max (cntGet acc.1 ty) (digitsToNat ds)), acc.2)
        | none => acc)
    ([], [])

/-- The per-finding loop of verifier._apply_findings. -/
def applyFindingsLoop :
    List FindingM → Str → List (Str × Str) → List (Str × Str) →
      List (Str × Nat) → List (Str × Nat) → Str × List (Str × Str) × List (Str × Str)
  | [], patched, tags, persons, _, _ => (patched, tags, persons)
  | f :: fs, patched, tags, persons, typeMax, initialsMax =>
    if strContains f.text "<NAME ".data || strContains f.text "<<".data ||
        strContains f.text ">>".data then
      applyFindingsLoop fs patched tags persons typeMax initialsMax
    else if (dictValues tags).contains f.text then
      applyFindingsLoop fs patched tags persons typeMax initialsMax
    else if !(strContains patched f.text) then
      applyFindingsLoop fs patched tags persons typeMax initialsMax
    else if f.entityType = "PERSON".data then
      let initials := makeInitials f.text
      let im := cntIncr initialsMax initials
      let n := cntGet im initials
      let tag :=
        if n > 1 then "<NAME ".data ++ initials ++ natStr n ++ ">".data
        else "<NAME ".data ++ initials ++ ">".data
      applyFindingsLoop fs (replaceCI patched f.text tag)
        (dictSet tags tag f.text) (dictSet persons f.text tag) typeMax im
    else
      let tm := cntIncr typeMax f.entityType
      let n := cntGet tm f.entityType
      let tag := "<<".data ++ f.entityType ++ "_".data ++ natStr n ++ ">>".data
      applyFindingsLoop fs (replaceCI patched f.text tag)
        (dictSet tags tag f.text) persons tm initialsMax

/-- verifier._apply_findings: reconstruct the tag counters from the mapping,
then apply each finding as an additional redaction (skipping tag-marker
texts, already-redacted values and texts absent from the current text),
assigning `<NAME INITIALS[N]>` tags to PERSON findings and `<<TYPE_N>>` tags
to the rest, replacing case-insensitively and globally. -/
def applyFindings (text : Str) (mapping : Mapping) (findings : List FindingM) :
    Str × Mapping :=
  let counters := reconstructCounters mapping.tags
  let r := applyFindingsLoop findings text mapping.tags mapping.persons
    counters.1 counters.2
  (r.1, ⟨r.2.1, r.2.2⟩)

/-- verifier.verify_and_patch.  External collaborators are parameters: the
sentence segmenter's output on the neutralized text (`rawSentences`), the
ids of the synthetic canary shards if canary injection is enabled
(canary.generate_canaries draws random data), and the outcome of the
network call (`result`; verify_client.VerifyClient.verify either returns a
parsed response or raises a VerifyError).  The cryptographic shuffle only
permutes what is sent to the client and cannot affect the returned value;
logging and the canary detection report are effect-free. -/
def verifyAndPatch (redactedText : Str) (mapping : Mapping)
    (rawSentences : List (Str × Nat × Nat)) (canaryIds : List Str)
    (result : Except VerifyErrorM VerifyResponseM) : Str × Mapping :=
  let neutralText := (neutralizeTags redactedText mapping).1
  let shards := shardText neutralText rawSentences
  if shards.isEmpty then (redactedText, mapping)
  else
    match result with
    | .error _ => (redactedText, mapping)
    | .ok resp =>
      let realFindings := resp.findings.filter (fun f => !(canaryIds.contains f.shardId))
      if realFindings.isEmpty then (redactedText, mapping)
      else applyFindings redactedText mapping realFindings

/-- A span produced by the external NER model, along the interface the spec
fixes for it: `ner(text) → sequence of (label, text, start_char, end_char)`. -/
structure SpacyEnt where
  label : Str
  text : Str
  startChar : Nat
  stopChar : Nat
deriving DecidableEq

/-- The non-person NER labels whose texts exclude a PERSON reading
(detector.detect_pii collects them into `non_person_texts`). -/
def nonPersonLabelList : List Str :=
  ["ORG".data, "GPE".data, "LOC".data, "NORP".data, "FAC".data,
   "PRODUCT".data, "WORK_OF_ART".data]

/-- detector._is_valid_person: the cheap pre-filter on PERSON spans. -/
def isValidPerson (text : Str) (nonPersonTexts : List Str) : Bool :=
  if text.contains '@' || text.any Char.isDigit then false
  else if text.contains '\n' then false
  else
    let parts := splitWs (pyStripWs text)
    if parts.isEmpty || parts.length > 5 then false
    else if parts.length = 1 && (parts.headD []).length ≤ 2 then false
    else if nonPersonTexts.contains text then false
    else true

/-- The vague-date words of detector._VAGUE_DATE_RE (a case-insensitive
substring search; the optional plural `s?` in the pattern is redundant for
a search). -/
def vagueDateWords : List Str :=
  ["year".data, "month".data, "week".data, "day".data, "present".data,
   "current".data, "today".data, "now".data, "ago".data]

/-- detector._is_specific_date: the DATE → DOB promotion test. -/
def isSpecificDate (text : Str) : Bool :=
  if !(text.any Char.isDigit) then false
  else if vagueDateWords.any (fun w => strContains (lowerStr text) w) then false
  else if text.contains '\n' then false
  else if strContains text " - ".data || strContains (lowerStr text) " to ".data then false
  else if text.length > 25 then false
  else true

/-- Python `str.title()` (ASCII): uppercase each letter that follows a
non-letter, lowercase the rest. -/
def pyTitleAux : Bool → Str → Str
  | _, [] => []
  | prevAlpha, c :: cs =>
    if c.isAlpha then
      (if prevAlpha then c.toLower else c.toUpper) :: pyTitleAux true cs
    else c :: pyTitleAux false cs

/-- Python `str.title()`. -/
def pyTitle (s : Str) : Str := pyTitleAux false s

/-- Position of the last newline inside a whitespace run (used to resolve
the backtracking of `\s*$` in the all-caps header regex: in MULTILINE mode
`$` matches before a newline or at the end of the string). -/
def lastNewlinePos (ws : Str) : Option Nat :=
  ws.enum.foldl (fun acc p => if p.2 = '\n' then some p.1 else acc) none

/-- Resolve `\s*$` after the captured group: `after` is the text following
the group, `g` the group length.  Returns the match length (group plus the
whitespace `\s*` greedily consumes, backtracking to the last newline of the
run when the run does not reach the end of the scanned header). -/
def allcapsTail (after : Str) (g : Nat) : Option Nat :=
  let ws := after.takeWhile pySpace
  if (after.drop ws.length).isEmpty then some (g + ws.length)
  else
    match lastNewlinePos ws with
    | some j => some (g + j)
    | none => none

/-- The `(?:\s+[A-Z][A-Z]+){0,3}` extension of the all-caps group: starting
from the text right after the previous token (at group offset `off`), return
the group-end offsets reachable by appending 1, 2, … further tokens. -/
def extendTokens : Nat → Str → Nat → List Nat
  | 0, _, _ => []
  | n + 1, rest, off =>
    let ws := rest.takeWhile pySpace
    if ws.isEmpty then []
    else
      let afterWs := rest.dropWhile pySpace
      let tok := afterWs.takeWhile Char.isUpper
      if tok.length ≥ 2 then
        (off + ws.length + tok.length)
          :: extendTokens n (afterWs.drop tok.length) (off + ws.length + tok.length)
      else []

/-- Greedy alternative selection: try the group-end candidates from the
longest (most repetitions) down, taking the first whose `\s*$` tail
succeeds.  Returns (group length, match length). -/
def pickTail (rest : Str) : List Nat → Option (Nat × Nat)
  | [] => none
  | g :: gs =>
    match allcapsTail (rest.drop g) g with
    | some q => some (g, q)
    | none => pickTail rest gs

/-- One anchored attempt of `^([A-Z][A-Z]+(?:\s+[A-Z][A-Z]+){0,3})\s*$` at a
line start: tokens are maximal uppercase runs (giving letters back can never
succeed, as a letter matches neither `\s` nor `$`), repetitions are tried
greedily. -/
def allcapsMatchAt (rest : Str) : Option (Nat × Nat) :=
  let tok := rest.takeWhile Char.isUpper
  if tok.length < 2 then none
  else
    let ends := tok.length :: extendTokens 3 (rest.drop tok.length) tok.length
    pickTail rest ends.reverse

/-- Python `re.finditer` of the all-caps header pattern over the header, MULTILINE:
attempt only at line starts, continue after each match end.  Yields
(match start, group length, match end) triples. -/
def allcapsScan : Nat → Str → Nat → Bool → List (Nat × Nat × Nat)
  | 0, _, _, _ => []
  | fuel + 1, rest, pos, atStart =>
    match rest with
    | [] => []
    | c :: cs =>
      if atStart then
        match allcapsMatchAt (c :: cs) with
        | some (g, q) =>
          (pos, g, pos + q)
            :: allcapsScan fuel ((c :: cs).drop q) (pos + q)
              (decide ((c :: cs).get? (q - 1) = some '\n'))
        | none => allcapsScan fuel cs (pos + 1) (c = '\n')
      else allcapsScan fuel cs (pos + 1) (c = '\n')

/-- detector._detect_allcaps_names: ALL-CAPS header lines in the first 500
characters become Title-Case PERSON candidates when the group has at least
two (all-alphabetic) words. -/
def detectAllcapsNames (text : Str) : List Entity :=
  let header := text.take 500
  (allcapsScan (header.length + 1) header 0 true).foldl
    (fun acc t =>
      let name := (header.drop t.1).take t.2.1
      let words := splitWs name
      if words.length ≥ 2 && words.all (fun w => !w.isEmpty && w.all Char.isAlpha) then
        acc ++ [⟨pyTitle name, "PERSON".data, t.1, t.2.2⟩]
      else acc)
    []

/-- The detector's merge order: Python's stable sort with key
`(e.start, -(e.end - e.start))`. -/
def detectLe (a b : Entity) : Prop :=
  a.start < b.start ∨
    (a.start = b.start ∧ (b.stop : Int) - b.start ≤ (a.stop : Int) - a.start)

instance : DecidableRel detectLe := fun a b => by
  unfold detectLe
  infer_instance

instance : IsTotal Entity detectLe :=
  ⟨by
    intro a b
    unfold detectLe
    rcases Nat.lt_trichotomy a.start b.start with h | h | h
    · exact Or.inl (Or.inl h)
    · rcases le_total ((b.stop : Int) - b.start) ((a.stop : Int) - a.start) with h2 | h2
      · exact Or.inl (Or.inr ⟨h, h2⟩)
      · exact Or.inr (Or.inr ⟨h.symm, h2⟩)
    · exact Or.inr (Or.inl h)⟩

instance : IsTrans Entity detectLe :=
  ⟨by
    intro a b c hab hbc
    unfold detectLe at hab hbc ⊢
    rcases hab with h1 | ⟨h1, h1'⟩ <;> rcases hbc with h2 | ⟨h2, h2'⟩
    · exact Or.inl (Nat.lt_trans h1 h2)
    · exact Or.inl (h2 ▸ h1)
    · exact Or.inl (h1 ▸ h2)
    · exact Or.inr ⟨h1.trans h2, le_trans h2' h1'⟩⟩

/-- The greedy non-overlap sweep of detector.detect_pii (last_end starts at
-1; an entity is kept when its start is at least last_end). -/
def greedySweep : List Entity → Int → List Entity
  | [], _ => []
  | e :: es, lastEnd =>
    if lastEnd ≤ (e.start : Int) then e :: greedySweep es e.stop
    else greedySweep es lastEnd

/-- detector.detect_pii, with the regex pass's matches and the external NER
model's spans as parameters (the seven compiled regular expressions are
evaluated by Python's regex engine; their matches on each concrete input are
supplied and can be re-traced by hand against detector.py lines 19-83):
spaCy candidates overlapping a regex match are discarded, PERSON/DATE spans
are filtered, all-caps header candidates are added, and the combined list is
stably sorted by `(start, -(end-start))` and greedily swept. -/
def detectPii (text : Str) (regexEnts : List Entity) (spacyEnts : List SpacyEnt) :
    List Entity :=
  let nonPersonTexts :=
    (spacyEnts.filter (fun e => nonPersonLabelList.contains e.label)).map (·.text)
  let spacyFiltered := spacyEnts.foldl
    (fun acc e =>
      acc ++
        (if regexEnts.any (fun r => max r.start e.startChar < min r.stop e.stopChar) then []
         else if e.label = "PERSON".data then
           (if isValidPerson e.text nonPersonTexts then
             [(⟨e.text, "PERSON".data, e.startChar, e.stopChar⟩ : Entity)]
            else [])
         else if e.label = "DATE".data then
           (if isSpecificDate e.text then
             [(⟨e.text, "DOB".data, e.startChar, e.stopChar⟩ : Entity)]
            else [])
         else []))
    []
  let entities := regexEnts ++ spacyFiltered ++ detectAllcapsNames text
  greedySweep (entities.insertionSort detectLe) (-1)

/-- Python `\w` (ASCII): the word characters deciding `\b` boundaries. -/
def isWordChar (c : Char) : Bool := c.isAlpha || c.isDigit || c = '_'

/-- Boundary `\b` before the next character: it must not be a word character (or the
text must end). -/
def boundaryOk (rest : Str) : Bool :=
  match rest with
  | [] => true
  | c :: _ => !(isWordChar c)

/-- Boundary `\b` at the start of a candidate word: the preceding character (if any)
must not be a word character. -/
def boundaryBefore (prev : Option Char) : Bool :=
  match prev with
  | none => true
  | some c => !(isWordChar c)

/-- One capitalized word `[A-Z][a-z]{minLower,}` as a maximal-munch parse
(returning its length and text).  Giving lowercase letters back can never
rescue a failed continuation — every continuation in audit.py's patterns
requires a non-word character or whitespace next — so maximal munch is
faithful to the backtracking regex. -/
def capWord (minLower : Nat) (s : Str) : Option (Nat × Str) :=
  match s with
  | [] => none
  | c :: cs =>
    if c.isUpper then
      let lowers := cs.takeWhile Char.isLower
      if lowers.length ≥ minLower then some (1 + lowers.length, c :: lowers) else none
    else none

/-- audit._NAME_TAG_RE `<NAME\s+[A-Z]+\d*>` anchored at the current
position; returns the match length. -/
def matchNameTag (s : Str) : Option Nat :=
  if "<NAME".data.isPrefixOf s then
    let r1 := s.drop 5
    let ws := r1.takeWhile pySpace
    if ws.isEmpty then none
    else
      let r2 := r1.drop ws.length
      let letters := r2.takeWhile Char.isUpper
      if letters.isEmpty then none
      else
        let r3 := r2.drop letters.length
        let digits := r3.takeWhile Char.isDigit
        match r3.drop digits.length with
        | '>' :: _ => some (5 + ws.length + letters.length + digits.length + 1)
        | _ => none
  else none

/-- audit._TYPED_TAG_RE `<<[A-Z]+_\d+>>` anchored at the current position. -/
def matchTypedTag (s : Str) : Option Nat :=
  if "<<".data.isPrefixOf s then
    let r1 := s.drop 2
    let letters := r1.takeWhile Char.isUpper
    if letters.isEmpty then none
    else
      match r1.drop letters.length with
      | '_' :: r2 =>
        let digits := r2.takeWhile Char.isDigit
        if digits.isEmpty then none
        else if ">>".data.isPrefixOf (r2.drop digits.length) then
          some (2 + letters.length + 1 + digits.length + 2)
        else none
      | _ => none
  else none

/-- Python `re.finditer` over anchored matchers that report a match length:
leftmost matches, scanning resumes after each match. -/
def tagSpans (matchFn : Str → Option Nat) : Nat → Str → Nat → List (Nat × Nat)
  | 0, _, _ => []
  | fuel + 1, rest, pos =>
    match rest with
    | [] => []
    | c :: cs =>
      match matchFn (c :: cs) with
      | some len =>
        (pos, pos + len) :: tagSpans matchFn fuel ((c :: cs).drop len) (pos + len)
      | none => tagSpans matchFn fuel cs (pos + 1)

/-- audit._is_already_tagged: the position range falls inside some existing
`<NAME …>` or `<<TYPE_N>>` tag occurrence. -/
def isAlreadyTagged (text : Str) (start stop : Nat) : Bool :=
  let spans := tagSpans matchNameTag (text.length + 1) text 0
    ++ tagSpans matchTypedTag (text.length + 1) text 0
  spans.any (fun sp =>
    (decide (sp.1 ≤ start) && decide (start < sp.2)) ||
      (decide (sp.1 < stop) && decide (stop ≤ sp.2)))

/-- Python `re.finditer` for the finding patterns: an anchored attempt returns
(match length, group start offset, group end offset, group text); the
driver yields (absolute group start, absolute group end, group text) and
resumes after the match end, tracking the previous character for `\b`. -/
def findIter (tryM : Option Char → Str → Option (Nat × Nat × Nat × Str)) :
    Nat → Option Char → Str → Nat → List (Nat × Nat × Str)
  | 0, _, _, _ => []
  | fuel + 1, prev, rest, pos =>
    match rest with
    | [] => []
    | c :: cs =>
      match tryM prev (c :: cs) with
      | some (len, rs, re2, g) =>
        if len = 0 then findIter tryM fuel (some c) cs (pos + 1)
        else
          (pos + rs, pos + re2, g)
            :: findIter tryM fuel ((c :: cs).get? (len - 1)) ((c :: cs).drop len) (pos + len)
      | none => findIter tryM fuel (some c) cs (pos + 1)

/-- The `\s+and\s+` connective of the conjunction patterns, anchored after a
prefix of length `off`; returns the offset after it. -/
def matchAnd (s : Str) (off : Nat) : Option Nat :=
  let r := s.drop off
  let ws1 := r.takeWhile pySpace
  if ws1.isEmpty then none
  else
    let r2 := r.drop ws1.length
    if "and".data.isPrefixOf r2 then
      let r3 := r2.drop 3
      let ws2 := r3.takeWhile pySpace
      if ws2.isEmpty then none else some (off + ws1.length + 3 + ws2.length)
    else none

/-- The capture `([A-Z][a-z]{2,}(?:\s+[A-Z][a-z]{2,})?)\b` of the
conjunction patterns: greedily try the two-word form, fall back to one. -/
def capPair (s : Str) : Option (Nat × Str) :=
  match capWord 2 s with
  | none => none
  | some (w1len, w1) =>
    let r5 := s.drop w1len
    let two :=
      let ws3 := r5.takeWhile pySpace
      if ws3.isEmpty then none
      else
        match capWord 2 (r5.drop ws3.length) with
        | some (w2len, w2) =>
          if boundaryOk ((r5.drop ws3.length).drop w2len) then
            some (w1len + ws3.length + w2len, w1 ++ ws3 ++ w2)
          else none
        | none => none
    match two with
    | some r => some r
    | none => if boundaryOk r5 then some (w1len, w1) else none

/-- Pattern `<NAME\s+[A-Z]+\d*>\s+and\s+([A-Z][a-z]{2,}(?:\s+[A-Z][a-z]{2,})?)\b`
(audit._check_orphaned_conjunctions, first direction). -/
def matchConjA (_prev : Option Char) (s : Str) : Option (Nat × Nat × Nat × Str) :=
  match matchNameTag s with
  | none => none
  | some tagLen =>
    match matchAnd s tagLen with
    | none => none
    | some gStart =>
      match capPair (s.drop gStart) with
      | some (glen, gstr) => some (gStart + glen, gStart, gStart + glen, gstr)
      | none => none

/-- Pattern `\b([A-Z][a-z]{2,}(?:\s+[A-Z][a-z]{2,})?)\s+and\s+<NAME\s+[A-Z]+\d*>`
(audit._check_orphaned_conjunctions, mirror direction).  The group is tried
greedily (two words, then one); each alternative must be followed by
`\s+and\s+` and a `<NAME …>` tag. -/
def matchConjB (prev : Option Char) (s : Str) : Option (Nat × Nat × Nat × Str) :=
  if !(boundaryBefore prev) then none
  else
    match capWord 2 s with
    | none => none
    | some (w1len, w1) =>
      let tryCont := fun (glen : Nat) (gstr : Str) =>
        match matchAnd s glen with
        | none => none
        | some afterAnd =>
          match matchNameTag (s.drop afterAnd) with
          | some tagLen => some (afterAnd + tagLen, 0, glen, gstr)
          | none => none
      let two :=
        let r5 := s.drop w1len
        let ws3 := r5.takeWhile pySpace
        if ws3.isEmpty then none
        else
          match capWord 2 (r5.drop ws3.length) with
          | some (w2len, w2) =>
            tryCont (w1len + ws3.length + w2len) (w1 ++ ws3 ++ w2)
          | none => none
      match two with
      | some r => some r
      | none => tryCont w1len w1

/-- The title alternation of audit._TITLE_RE, in the pattern's order (the
regex engine commits to the first alternative whose continuation
succeeds). -/
def titleAlts : List Str :=
  ["Mr".data, "Mrs".data, "Ms".data, "Miss".data, "Dr".data, "Prof".data,
   "Professor".data, "Rev".data, "Judge".data, "Hon".data]

/-- The name capture `([A-Z][a-z]+(?:\s+[A-Z][a-z]+)?)\b` of the title
pattern (single lowercase letters allowed, unlike the conjunctions). -/
def capPairTitle (s : Str) : Option (Nat × Str) :=
  match capWord 1 s with
  | none => none
  | some (w1len, w1) =>
    let r5 := s.drop w1len
    let two :=
      let ws3 := r5.takeWhile pySpace
      if ws3.isEmpty then none
      else
        match capWord 1 (r5.drop ws3.length) with
        | some (w2len, w2) =>
          if boundaryOk ((r5.drop ws3.length).drop w2len) then
            some (w1len + ws3.length + w2len, w1 ++ ws3 ++ w2)
          else none
        | none => none
    match two with
    | some r => some r
    | none => if boundaryOk r5 then some (w1len, w1) else none

/-- The continuation of the title pattern after the title word and optional
dot: `\s+` then the name capture. -/
def titleCont (s : Str) (off : Nat) : Option (Nat × Nat × Nat × Str) :=
  let r2 := s.drop off
  let ws := r2.takeWhile pySpace
  if ws.isEmpty then none
  else
    match capPairTitle (r2.drop ws.length) with
    | some (glen, gstr) =>
      some (off + ws.length + glen, off + ws.length, off + ws.length + glen, gstr)
    | none => none

/-- audit._TITLE_RE anchored at the current position.  When a dot follows
the title word, the dotless alternative of `\.?` cannot succeed (the dot
matches no whitespace), so only the dotted attempt is made. -/
def matchTitle (prev : Option Char) (s : Str) : Option (Nat × Nat × Nat × Str) :=
  if !(boundaryBefore prev) then none
  else
    (titleAlts.foldl
      (fun acc alt =>
        match acc with
        | some r => some r
        | none =>
          if alt.isPrefixOf s then
            if (s.drop alt.length).head? = some '.' then titleCont s (alt.length + 1)
            else titleCont s alt.length
          else none)
      none)

/-- audit._CAP_PHRASE_RE `\b([A-Z][a-z]{2,}(?:\s+[A-Z][a-z]{2,}){1,2})\b`
anchored at the current position: one to two extra words, tried greedily.
When the three-word boundary fails, the two-word boundary always holds (the
next character is the whitespace that began the third word's separator). -/
def matchPhrase (prev : Option Char) (s : Str) : Option (Nat × Nat × Nat × Str) :=
  if !(boundaryBefore prev) then none
  else
    match capWord 2 s with
    | none => none
    | some (w1len, w1) =>
      let parseExtra := fun (r : Str) =>
        let ws := r.takeWhile pySpace
        if ws.isEmpty then none
        else
          match capWord 2 (r.drop ws.length) with
          | some (wlen, w) => some (ws.length + wlen, ws ++ w)
          | none => none
      match parseExtra (s.drop w1len) with
      | none => none
      | some (e1len, e1str) =>
        let after1 := s.drop (w1len + e1len)
        match parseExtra after1 with
        | some (e2len, e2str) =>
          if boundaryOk (after1.drop e2len) then
            some (w1len + e1len + e2len, 0, w1len + e1len + e2len,
              w1 ++ e1str ++ e2str)
          else if boundaryOk after1 then
            some (w1len + e1len, 0, w1len + e1len, w1 ++ e1str)
          else none
        | none =>
          if boundaryOk after1 then
            some (w1len + e1len, 0, w1len + e1len, w1 ++ e1str)
          else none

/-- audit._POSSESSIVE_RE anchored at the current position:
a capitalized word followed by an apostrophe and `s`, then `\b`. -/
def matchPossessive (prev : Option Char) (s : Str) : Option (Nat × Nat × Nat × Str) :=
  if !(boundaryBefore prev) then none
  else
    match capWord 2 s with
    | none => none
    | some (wlen, w) =>
      match s.drop wlen with
      | '\'' :: 's' :: r2 =>
        if boundaryOk r2 then some (wlen + 2, 0, wlen, w) else none
      | _ => none

/-- audit._check_orphaned_conjunctions: both directions, the tag-first
findings before the mirror ones, each filtered by _is_already_tagged on the
group span. -/
def checkOrphanedConjunctions (text : Str) : List Str :=
  let asA := findIter matchConjA (text.length + 1) none text 0
  let asB := findIter matchConjB (text.length + 1) none text 0
  (asA.foldl (fun acc t =>
    if isAlreadyTagged text t.1 t.2.1 then acc else acc ++ [t.2.2]) [])
  ++ (asB.foldl (fun acc t =>
    if isAlreadyTagged text t.1 t.2.1 then acc else acc ++ [t.2.2]) [])

/-- audit._check_title_prefixed. -/
def checkTitlePrefixed (text : Str) : List Str :=
  (findIter matchTitle (text.length + 1) none text 0).foldl
    (fun acc t => if isAlreadyTagged text t.1 t.2.1 then acc else acc ++ [t.2.2]) []

/-- audit._check_capitalized_phrases: skip tagged spans, blocklisted
phrases and phrases with any word shorter than 3 characters; keep phrases
of at least two words. -/
def checkCapitalizedPhrases (text : Str) (blocklist : List Str) : List Str :=
  (findIter matchPhrase (text.length + 1) none text 0).foldl
    (fun acc t =>
      if isAlreadyTagged text t.1 t.2.1 then acc
      else if blocklist.contains (lowerStr t.2.2) then acc
      else
        let words := splitWs t.2.2
        if words.any (fun w => w.length < 3) then acc
        else if words.length ≥ 2 then acc ++ [t.2.2]
        else acc)
    []

/-- audit._check_possessive_references. -/
def checkPossessiveReferences (text : Str) (knownNames : List Str) : List Str :=
  (findIter matchPossessive (text.length + 1) none text 0).foldl
    (fun acc t =>
      if knownNames.contains (lowerStr t.2.2) && !(isAlreadyTagged text t.1 t.2.1) then
        acc ++ [t.2.2]
      else acc)
    []

/-- audit._collect_known_names: lowercase every person surface form and
every of its tokens of length at least 3 (a Python set; only membership is
consulted, so duplicates are harmless). -/
def collectKnownNames (mapping : Mapping) : List Str :=
  mapping.persons.foldl
    (fun acc p =>
      acc ++ [lowerStr p.1]
        ++ ((splitWs p.1).filter (fun part => part.length ≥ 3)).map lowerStr)
    []

/-- The per-finding loop of audit.audit_redacted (lines 163-197): skip
findings carrying tag markers, already-redacted values and texts absent from
the current text; reuse the tag of the first person surface of which the
finding is a (case-insensitive) token, otherwise create a `<NAME INITIALS[N]>`
tag continuing the reconstructed collision counter; replace globally and
case-insensitively. -/
def auditApplyLoop :
    List Str → Str → List (Str × Str) → List (Str × Str) → List (Str × Nat) →
      Str × List (Str × Str) × List (Str × Str)
  | [], patched, tags, persons, _ => (patched, tags, persons)
  | f :: fs, patched, tags, persons, initialsMax =>
    if strContains f "<NAME ".data || strContains f "<<".data then
      auditApplyLoop fs patched tags persons initialsMax
    else if (dictValues tags).contains f then
      auditApplyLoop fs patched tags persons initialsMax
    else if !(strContains patched f) then
      auditApplyLoop fs patched tags persons initialsMax
    else
      match persons.find? (fun p => (splitWs (lowerStr p.1)).contains (lowerStr f)) with
      | some p =>
        auditApplyLoop fs (replaceCI patched f p.2)
          (dictSet tags p.2 f) (dictSet persons f p.2) initialsMax
      | none =>
        let initials := makeInitials f
        let im := cntIncr initialsMax initials
        let n := cntGet im initials
        let tag :=
          if n > 1 then "<NAME ".data ++ initials ++ natStr n ++ ">".data
          else "<NAME ".data ++ initials ++ ">".data
        auditApplyLoop fs (replaceCI patched f tag)
          (dictSet tags tag f) (dictSet persons f tag) im

/-- audit.audit_redacted, with the blocklist (three unioned on-disk files,
external to the pipeline) as a parameter: collect the findings of the four
detectors, deduplicate case-insensitively dropping blocklisted ones, and
apply them.  When no finding survives, the input text and mapping are
returned unchanged. -/
def auditRedacted (blocklist : List Str) (redactedText : Str) (mapping : Mapping) :
    Str × Mapping :=
  let knownNames := collectKnownNames mapping
  let allFindings :=
    checkOrphanedConjunctions redactedText
      ++ checkTitlePrefixed redactedText
      ++ checkCapitalizedPhrases redactedText blocklist
      ++ checkPossessiveReferences redactedText knownNames
  let uniqueFindings := (allFindings.foldl
    (fun (acc : List Str × List Str) f =>
      if acc.1.contains (lowerStr f) || blocklist.contains (lowerStr f) then acc
      else (acc.1 ++ [lowerStr f], acc.2 ++ [f]))
    ([], [])).2
  if uniqueFindings.isEmpty then (redactedText, mapping)
  else
    let initialsMax := mapping.tags.foldl
      (fun acc p =>
        match parseNameTag p.1 with
        | some (letters, n) => dictSet acc letters (max (cntGet acc letters) n)
        | none => acc)
      []
    let r := auditApplyLoop uniqueFindings redactedText mapping.tags mapping.persons
      initialsMax
    (r.1, ⟨r.2.1, r.2.2⟩)

/-- The spec's S1 text, used as the concrete round-trip input. -/
def s1Text : Str := "Steve Johnson joined. Steve will lead.".data

/-- The S1 person entities: the full name and the later bare first name. -/
def s1Entities : List Entity :=
  [⟨"Steve Johnson".data, "PERSON".data, 0, 13⟩,
   ⟨"Steve".data, "PERSON".data, 22, 27⟩]

/-- C1: the round trip does not return the original text: the bare surface
form "Steve" at offset 22 is restored to the cluster's canonical longest form
"Steve Johnson", because `restore` substitutes `tags[tag]` and `redact` stores
only the canonical form there.  This falsifies the claim's requirement that a
shorter person surface form restores to that surface form. -/
theorem c1_roundtrip_counterexample :
    restore (redact s1Text s1Entities).1 (redact s1Text s1Entities).2.tags ≠ s1Text := by
  decide

/-- C1 (amended): the round trip returns the original text with every
redacted person occurrence replaced by its cluster's canonical (longest)
surface form — on the spec's own S1 scenario, "Steve will lead." comes back
as "Steve Johnson will lead.", while the redacted text and mapping are
exactly as specified. -/
theorem c1_roundtrip_canonicalizes :
    redact s1Text s1Entities =
      ("<<SJ>> joined. <<SJ>> will lead.".data,
        ⟨[("<<SJ>>".data, "Steve Johnson".data)],
         [("Steve Johnson".data, "<<SJ>>".data), ("Steve".data, "<<SJ>>".data)]⟩) ∧
    restore (redact s1Text s1Entities).1 (redact s1Text s1Entities).2.tags =
      "Steve Johnson joined. Steve Johnson will lead.".data := by
  constructor
  · decide
  · decide

/-- C10: redacting with an empty entity list is the identity on the text and
produces a mapping with empty `tags` and `persons`. -/
theorem c10_redact_empty_entities (t : Str) : redact t [] = (t, ⟨[], []⟩) := rfl

lemma head?_dropWhile_pySpace (l : Str) (c : Char)
    (h : (l.dropWhile pySpace).head? = some c) : pySpace c = false := by
  induction l with
  | nil => simp [List.dropWhile] at h
  | cons x xs ih =>
    by_cases hx : pySpace x
    · rw [List.dropWhile_cons, if_pos hx] at h
      exact ih h
    · rw [List.dropWhile_cons, if_neg hx] at h
      simp only [List.head?_cons, Option.some.injEq] at h
      rw [← h]
      exact Bool.eq_false_iff.mpr hx

lemma getLast?_dropTrailingWs (l : Str) (c : Char)
    (h : (dropTrailingWs l).getLast? = some c) : pySpace c = false := by
  induction l with
  | nil => simp [dropTrailingWs] at h
  | cons x xs ih =>
    rw [dropTrailingWs] at h
    cases hx : dropTrailingWs xs with
    | nil =>
      simp only [hx] at h
      by_cases hsp : pySpace x
      · rw [if_pos hsp] at h
        simp at h
      · rw [if_neg hsp] at h
        simp only [List.getLast?_singleton, Option.some.injEq] at h
        rw [← h]
        exact Bool.eq_false_iff.mpr hsp
    | cons y ys =>
      simp only [hx] at h
      rw [List.getLast?_cons_cons, ← hx] at h
      exact ih h

lemma head?_dropTrailingWs (l : Str) (c : Char)
    (h : (dropTrailingWs l).head? = some c) : l.head? = some c := by
  cases l with
  | nil => simp [dropTrailingWs] at h
  | cons x xs =>
    rw [dropTrailingWs] at h
    cases hx : dropTrailingWs xs with
    | nil =>
      simp only [hx] at h
      by_cases hsp : pySpace x
      · rw [if_pos hsp] at h
        simp at h
      · rw [if_neg hsp] at h
        simp only [List.head?_cons, Option.some.injEq] at h
        simp [h]
    | cons y ys =>
      simp only [hx] at h
      simp only [List.head?_cons, Option.some.injEq] at h
      simp [h]

lemma length_dropTrailingWs_le (l : Str) : (dropTrailingWs l).length ≤ l.length := by
  induction l with
  | nil => simp [dropTrailingWs]
  | cons x xs ih =>
    rw [dropTrailingWs]
    cases hx : dropTrailingWs xs with
    | nil =>
      simp only [hx]
      by_cases hsp : pySpace x
      · rw [if_pos hsp]
        simp
      · rw [if_neg hsp]
        simp
    | cons y ys =>
      simp only [hx]
      have hlen := ih
      rw [hx] at hlen
      simp only [List.length_cons] at hlen ⊢
      omega

lemma pyStripWs_head (s : Str) (c : Char) (h : (pyStripWs s).head? = some c) :
    pySpace c = false :=
  head?_dropWhile_pySpace s c (head?_dropTrailingWs _ c h)

lemma pyStripWs_getLast (s : Str) (c : Char) (h : (pyStripWs s).getLast? = some c) :
    pySpace c = false :=
  getLast?_dropTrailingWs _ c h

lemma pyStripWs_length_le (s : Str) : (pyStripWs s).length ≤ s.length :=
  le_trans (length_dropTrailingWs_le _) (List.dropWhile_sublist _).length_le

lemma foldl_lastSome (q : Char → Prop) [DecidablePred q] :
    ∀ (l : List (Nat × Char)) (init : Option Nat) (k : Nat),
      l.foldl (fun acc p => if q p.2 then some p.1 else acc) init = some k →
        init = some k ∨ ∃ c, (k, c) ∈ l := by
  intro l
  induction l with
  | nil => intro init k h; exact Or.inl h
  | cons p ps ih =>
    intro init k h
    rw [List.foldl_cons] at h
    rcases ih _ k h with hinit | ⟨c, hc⟩
    · by_cases hq : q p.2
      · rw [if_pos hq] at hinit
        right
        exact ⟨p.2, by rw [Option.some.injEq] at hinit; rw [← hinit]; exact List.mem_cons_self _ _⟩
      · rw [if_neg hq] at hinit
        exact Or.inl hinit
    · exact Or.inr ⟨c, List.mem_cons_of_mem _ hc⟩

lemma pyRfindSpace_lt (s : Str) (limit k : Nat) (h : pyRfindSpace s limit = some k) :
    k < limit := by
  rcases foldl_lastSome (fun c => c = ' ') _ none k h with hinit | ⟨c, hc⟩
  · exact absurd hinit (by simp)
  · have hget := List.mk_mem_enum_iff_getElem?.mp hc
    have hlt : k < (s.take limit).length := by
      by_contra hge
      rw [List.getElem?_eq_none (Nat.le_of_not_lt hge)] at hget
      exact Option.noConfusion hget
    exact lt_of_lt_of_le hlt (by simp [List.length_take])

lemma capSplit_piece_length_le :
    ∀ (fuel : Nat) (rem : Str) (pos : Nat) (p : Str × Nat × Nat),
      p ∈ capSplit fuel rem pos → p.1.length ≤ 800 := by
  intro fuel
  induction fuel with
  | zero => intro rem pos p hp; simp [capSplit] at hp
  | succ n ih =>
    intro rem pos p hp
    rw [capSplit] at hp
    by_cases h0 : rem.isEmpty
    · simp [h0] at hp
    · rw [if_neg h0] at hp
      by_cases h8 : rem.length ≤ 800
      · rw [if_pos h8] at hp
        simp only [List.mem_singleton] at hp
        rw [hp]
        exact h8
      · rw [if_neg h8] at hp
        rcases List.mem_cons.mp hp with heq | htl
        · rw [heq]
          simp only [List.length_take]
          refine le_trans (Nat.min_le_left _ _) ?_
          cases hfind : pyRfindSpace rem 800 with
          | none => simp [hfind]
          | some k =>
            simp only [hfind]
            by_cases hk : k = 0
            · simp [hk]
            · rw [if_neg hk]
              exact Nat.le_of_lt (pyRfindSpace_lt rem 800 k hfind)
        · exact ih _ _ _ htl

lemma foldl_append_bind (g : α → List β) (l : List α) (init : List β) :
    l.foldl (fun acc a => acc ++ g a) init = init ++ l.flatMap g := by
  induction l generalizing init with
  | nil => simp
  | cons x xs ih => simp [List.foldl_cons, ih, List.append_assoc]

/-- C9 (amended): every shard produced by shard_text has non-empty text with
no leading or trailing whitespace, of length at most 800 characters (the
side condition covers the defensive fallback branch for an empty sentence
list, which the external segmenter only produces on effectively empty input).
The split point of an over-long chunk is the rightmost SPACE character
(U+0020) strictly before position 800 — not an arbitrary whitespace
character, see the counterexample — with a hard split at 800 otherwise,
and a sentence with fewer than 5 whitespace-separated tokens is merged into
its predecessor when it has one. -/
theorem c9_shard_bounds (text : Str) (raw : List (Str × Nat × Nat)) (s : ShardM)
    (hs : s ∈ shardText text raw)
    (hfallback : raw = [] → (pyStripWs text).length ≤ 800) :
    s.text ≠ [] ∧ s.text.length ≤ 800 ∧
      (∀ c, s.text.head? = some c → pySpace c = false) ∧
      (∀ c, s.text.getLast? = some c → pySpace c = false) := by
  cases raw with
  | nil =>
    rw [shardText] at hs
    by_cases hempty : (pyStripWs text).isEmpty
    · simp [hempty] at hs
    · rw [if_neg hempty] at hs
      simp only [List.mem_singleton] at hs
      subst hs
      refine ⟨?_, hfallback rfl, fun c hc => pyStripWs_head _ c hc,
        fun c hc => pyStripWs_getLast _ c hc⟩
      intro hnil
      rw [List.isEmpty_iff] at hempty
      exact hempty hnil
  | cons r0 rs =>
    rw [shardText] at hs
    rw [foldl_append_bind, List.nil_append, List.mem_flatMap] at hs
    obtain ⟨c, hc, hsc⟩ := hs
    by_cases hstr : (pyStripWs c.1).isEmpty
    · rw [if_pos hstr] at hsc
      simp at hsc
    · rw [if_neg hstr, List.mem_singleton] at hsc
      subst hsc
      have hcle : c.1.length ≤ 800 := by
        rw [foldl_append_bind, List.nil_append, List.mem_flatMap] at hc
        obtain ⟨m, _, hmem⟩ := hc
        by_cases h8 : m.1.length ≤ 800
        · rw [if_pos h8, List.mem_singleton] at hmem
          rw [hmem]
          exact h8
        · rw [if_neg h8] at hmem
          exact capSplit_piece_length_le _ _ _ _ hmem
      refine ⟨?_, le_trans (pyStripWs_length_le _) hcle,
        fun ch hch => pyStripWs_head _ ch hch,
        fun ch hch => pyStripWs_getLast _ ch hch⟩
      intro hnil
      rw [List.isEmpty_iff] at hstr
      exact hstr hnil

/-- Witness for C9 at a concrete input: a single 3-character sentence is
returned as one shard satisfying all the bounds. -/
theorem c9_shard_bounds_witness :
    (⟨"abc".data, 0, 3⟩ : ShardM) ∈ shardText "abc".data [("abc".data, 0, 3)] ∧
      ((⟨"abc".data, 0, 3⟩ : ShardM).text ≠ [] ∧
        (⟨"abc".data, 0, 3⟩ : ShardM).text.length ≤ 800 ∧
        (∀ c, (⟨"abc".data, 0, 3⟩ : ShardM).text.head? = some c → pySpace c = false) ∧
        (∀ c, (⟨"abc".data, 0, 3⟩ : ShardM).text.getLast? = some c → pySpace c = false)) :=
  ⟨by decide, c9_shard_bounds "abc".data [("abc".data, 0, 3)] ⟨"abc".data, 0, 3⟩
    (by decide) (by decide)⟩

/-- Modelled from the spec: the split-point rule the spec states for an
over-long sentence — "split at the rightmost whitespace before position 800
(fall back to a hard split if none exists)".  `pyRfindWs` finds the
rightmost whitespace (any whitespace character) below the limit. -/
def pyRfindWs (s : Str) (limit : Nat) : Option Nat :=
  (s.take limit).enum.foldl (fun acc p => if pySpace p.2 then some p.1 else acc) none

/-- Modelled from the spec: the first piece of the spec's split rule for a
chunk longer than 800 characters. -/
def claimFirstPiece (chunk : Str) : Str :=
  if chunk.length ≤ 800 then chunk
  else
    match pyRfindWs chunk 800 with
    | some k => chunk.take k
    | none => chunk.take 800

/-- A 900-character sentence with a newline at position 400 and no space
characters anywhere. -/
def longNoSpace : Str := List.replicate 400 'a' ++ '\n' :: List.replicate 499 'b'

set_option maxRecDepth 100000 in
set_option maxHeartbeats 2000000 in
/-- C9 counterexample: on a 900-character sentence whose only whitespace is a
newline at position 400, the code hard-splits at 800 (its `rfind` looks only
for the SPACE character), so the first shard keeps 800 characters and
retains the newline — whereas the claim's "split at the rightmost whitespace
before position 800" would cut at position 400. -/
theorem c9_split_counterexample :
    (shardText longNoSpace [(longNoSpace, 0, 900)]).head?.map (fun s => s.text) ≠
        some (pyStripWs (claimFirstPiece longNoSpace)) ∧
      (shardText longNoSpace [(longNoSpace, 0, 900)]).head?.map
          (fun s => s.text.length) = some 800 ∧
      pyRfindWs longNoSpace 800 = some 400 := by
  refine ⟨by decide, by decide, by decide⟩

/-- The auditor-shaped mapping on which neutralization fails: the tag key is
in the `<NAME INITIALS>` form that audit.audit_redacted and
verifier._apply_findings create. -/
def nameTagText : Str := "<NAME SJ> called home.".data

/-- The mapping accompanying `nameTagText`. -/
def nameTagMapping : Mapping :=
  ⟨[("<NAME SJ>".data, "Steve Johnson".data)],
   [("Steve Johnson".data, "<NAME SJ>".data)]⟩

/-- C2: evaluation of the code at the failing input.  neutralize_tags leaves
the auditor-created tag `<NAME SJ>` completely untouched (its bracket-
stripped interior "NAME SJ" matches neither tag shape), so the text sent to
the cloud still contains the person's initials "SJ" inside a tag, and no
`<<PERSON_X>>` tag is produced.  This contradicts verifier.verify_and_patch's
own documented behavior ("<NAME SJ> -> <<PERSON_A>>"). -/
theorem c2_code_behavior_at_failing_input :
    (neutralizeTags nameTagText nameTagMapping).1 = nameTagText ∧
      (neutralizeTags nameTagText nameTagMapping).2 = [] ∧
      strContains (neutralizeTags nameTagText nameTagMapping).1 "<NAME SJ>".data = true ∧
      makeInitials "Steve Johnson".data = "SJ".data ∧
      strContains "<NAME SJ>".data "SJ".data = true := by
  refine ⟨by decide, by decide, by decide, by decide, by decide⟩

/-- C8 (amended): after validation, every non-PERSON entity — DOB entities
from the regex pass included — carries confidence exactly 1.0.  The detector
assigns no confidence at all, and the claimed 0.8 demotion for DOB does not
exist in the code. -/
theorem c8_nonperson_confidence_one (score : Entity → ℚ) (entities : List Entity)
    (e : ScoredEntity) (he : e ∈ validateEntities score entities)
    (hl : e.label ≠ "PERSON".data) : e.confidence = 1 := by
  induction entities with
  | nil => simp [validateEntities] at he
  | cons x xs ih =>
    rw [validateEntities] at he
    by_cases hx : x.label = "PERSON".data
    · rw [if_pos hx] at he
      by_cases hsc : (3 / 5 : ℚ) ≤ score x
      · rw [if_pos hsc] at he
        rcases List.mem_cons.mp he with heq | htl
        · exfalso
          apply hl
          rw [heq]
          exact hx
        · exact ih htl
      · rw [if_neg hsc] at he
        exact ih he
    · rw [if_neg hx] at he
      rcases List.mem_cons.mp he with heq | htl
      · rw [heq]
      · exact ih htl

/-- Witness for C8 at a concrete input: a regex-detected DOB entity comes out
of validation with confidence 1. -/
theorem c8_nonperson_confidence_one_witness :
    ((⟨"03/15/1990".data, "DOB".data, 6, 16, 1⟩ : ScoredEntity) ∈
        validateEntities (fun _ => 0) [⟨"03/15/1990".data, "DOB".data, 6, 16⟩] ∧
      ("DOB".data : Str) ≠ "PERSON".data) ∧
      (⟨"03/15/1990".data, "DOB".data, 6, 16, 1⟩ : ScoredEntity).confidence = 1 :=
  ⟨⟨by decide, by decide⟩,
    c8_nonperson_confidence_one (fun _ => 0) [⟨"03/15/1990".data, "DOB".data, 6, 16⟩]
      ⟨"03/15/1990".data, "DOB".data, 6, 16, 1⟩ (by decide) (by decide)⟩

/-- C8 counterexample: a regex-detected DOB entity has confidence 1.0 after
validation, not the claimed 0.8. -/
theorem c8_dob_confidence_counterexample :
    (validateEntities (fun _ => 0)
        [⟨"03/15/1990".data, "DOB".data, 6, 16⟩]).map (·.confidence) = [1] ∧
      (1 : ℚ) ≠ 4 / 5 := by
  refine ⟨by decide, by norm_num⟩

lemma greedySweep_sublist : ∀ (l : List Entity) (lastEnd : Int),
    List.Sublist (greedySweep l lastEnd) l := by
  intro l
  induction l with
  | nil => intro lastEnd; simp [greedySweep]
  | cons e es ih =>
    intro lastEnd
    rw [greedySweep]
    by_cases h : lastEnd ≤ (e.start : Int)
    · rw [if_pos h]
      exact List.Sublist.cons₂ e (ih e.stop)
    · rw [if_neg h]
      exact List.Sublist.cons e (ih lastEnd)

lemma greedySweep_start_ge : ∀ (l : List Entity) (lastEnd : Int),
    l.Pairwise (fun a b => a.start ≤ b.start) →
      ∀ e ∈ greedySweep l lastEnd, lastEnd ≤ (e.start : Int) := by
  intro l
  induction l with
  | nil => intro lastEnd _ e he; simp [greedySweep] at he
  | cons x xs ih =>
    intro lastEnd hp e he
    rw [greedySweep] at he
    rcases List.pairwise_cons.mp hp with ⟨hx, hxs⟩
    by_cases h : lastEnd ≤ (x.start : Int)
    · rw [if_pos h] at he
      rcases List.mem_cons.mp he with heq | htl
      · rw [heq]
        exact h
      · have hmem : e ∈ xs := (greedySweep_sublist xs x.stop).subset htl
        calc lastEnd ≤ (x.start : Int) := h
          _ ≤ (e.start : Int) := Int.ofNat_le.mpr (hx e hmem)
    · rw [if_neg h] at he
      exact ih lastEnd hxs e he

lemma greedySweep_sep : ∀ (l : List Entity) (lastEnd : Int),
    l.Pairwise (fun a b => a.start ≤ b.start) →
      (greedySweep l lastEnd).Pairwise (fun a b => (a.stop : Int) ≤ (b.start : Int)) := by
  intro l
  induction l with
  | nil => intro lastEnd _; simp [greedySweep]
  | cons x xs ih =>
    intro lastEnd hp
    rcases List.pairwise_cons.mp hp with ⟨_, hxs⟩
    rw [greedySweep]
    by_cases h : lastEnd ≤ (x.start : Int)
    · rw [if_pos h]
      exact List.pairwise_cons.mpr
        ⟨fun e he => greedySweep_start_ge xs x.stop hxs e he, ih x.stop hxs⟩
    · rw [if_neg h]
      exact ih lastEnd hxs

/-- C7 (amended): for every input and every regex-match list and NER output,
the detector returns a sequence of entities that is pairwise non-overlapping
(each entity ends no later than the next begins) and ordered by start
offset.  It is obtained by discarding NER candidates that overlap a regex
match (all-caps header candidates are not so filtered — see the
counterexample), stably sorting by `(start, -(end - start))` (candidates
carry no confidence at this stage; validation assigns it later), and keeping
the greedy non-overlapping prefix. -/
theorem c7_detect_nonoverlap_sorted (text : Str) (regexEnts : List Entity)
    (spacyEnts : List SpacyEnt) :
    ((detectPii text regexEnts spacyEnts).Pairwise
        (fun a b => (a.stop : Int) ≤ (b.start : Int))) ∧
      ((detectPii text regexEnts spacyEnts).Pairwise
        (fun a b => a.start ≤ b.start)) := by
  have hsorted :
      ∀ l : List Entity, (l.insertionSort detectLe).Pairwise
        (fun a b => a.start ≤ b.start) := by
    intro l
    have hs := List.sorted_insertionSort detectLe l
    exact hs.imp (fun hab => by
      rcases hab with h | ⟨h, _⟩
      · exact Nat.le_of_lt h
      · exact Nat.le_of_eq h)
  constructor
  · exact greedySweep_sep _ _ (hsorted _)
  · exact (hsorted _).sublist (greedySweep_sublist _ _)

/-- A candidate as the spec's data model describes it, carrying a
confidence. -/
structure SpecCand where
  ent : Entity
  confidence : ℚ
deriving DecidableEq

/-- Modelled from the spec: the claim's sort order
`(start, -confidence, -(end-start))`. -/
def claimLe (a b : SpecCand) : Prop :=
  a.ent.start < b.ent.start ∨
    (a.ent.start = b.ent.start ∧
      (b.confidence < a.confidence ∨
        (b.confidence = a.confidence ∧
          (b.ent.stop : Int) - b.ent.start ≤ (a.ent.stop : Int) - a.ent.start)))

instance : DecidableRel claimLe := fun a b => by
  unfold claimLe
  infer_instance

/-- Modelled from the spec: the greedy sweep over spec candidates. -/
def greedySweepSpec : List SpecCand → Int → List SpecCand
  | [], _ => []
  | c :: cs, lastEnd =>
    if lastEnd ≤ (c.ent.start : Int) then c :: greedySweepSpec cs c.ent.stop
    else greedySweepSpec cs lastEnd

/-- Modelled from the spec: the merge-and-dedupe procedure the claim states —
"discarding candidates that overlap a regex match, sorting the remaining
candidates by (start, -confidence, -(end-start)), and greedily keeping the
non-overlapping prefix". -/
def claimMerge (regexCands otherCands : List SpecCand) : List SpecCand :=
  let kept := otherCands.filter
    (fun c => !(regexCands.any
      (fun r => max r.ent.start c.ent.start < min r.ent.stop c.ent.stop)))
  greedySweepSpec ((regexCands ++ kept).insertionSort claimLe) (-1)

/-- The header text "JOHN MAY\n15 2024": the DOB regex (case-insensitive,
`\s+` crossing the newline) matches "MAY\n15 2024" at offsets 5-16, and the
all-caps header heuristic matches "JOHN MAY" at offsets 0-8. -/
def allcapsDobText : Str := "JOHN MAY\n15 2024".data

/-- The single regex-pass match on `allcapsDobText` (detector.DOB_RE:
month name, whitespace — here the newline —, day, whitespace, year). -/
def allcapsDobRegexEnts : List Entity :=
  [⟨"MAY\n15 2024".data, "DOB".data, 5, 16⟩]

/-- C7 counterexample: on "JOHN MAY\n15 2024" (with no NER spans) the code
keeps the all-caps header candidate "John May" (0-8) and drops the regex DOB
match (5-16) in the greedy sweep — the all-caps candidate is never checked
against regex matches.  The claim's procedure would discard the overlapping
all-caps candidate and return the regex match, so the two outputs differ. -/
theorem c7_merge_counterexample :
    (detectPii allcapsDobText allcapsDobRegexEnts []).map (fun e => (e.start, e.stop)) =
        [(0, 8)] ∧
      (claimMerge [⟨⟨"MAY\n15 2024".data, "DOB".data, 5, 16⟩, 4 / 5⟩]
          [⟨⟨"John May".data, "PERSON".data, 0, 8⟩, 9 / 10⟩]).map
          (fun c => (c.ent.start, c.ent.stop)) = [(5, 16)] ∧
      [((0 : Nat), (8 : Nat))] ≠ [(5, 16)] := by
  refine ⟨by decide, by decide, by decide⟩

/-- The §6 person tag grammar, transcribed from the spec:
`<<` `[A-Z]+` (`[0-9]+`)? `>>`. -/
def personTagGrammar (tag : Str) : Bool :=
  "<<".data.isPrefixOf tag &&
    !((tag.drop 2).takeWhile Char.isUpper).isEmpty &&
    decide ((((tag.drop 2).dropWhile Char.isUpper).dropWhile Char.isDigit) = ">>".data)

/-- The §6 closed type set, transcribed from the spec:
`(EMAIL|PHONE|SSN|URL|DOB|ID|ADDR)`. -/
def closedTypes : List Str :=
  ["EMAIL".data, "PHONE".data, "SSN".data, "URL".data, "DOB".data,
   "ID".data, "ADDR".data]

/-- The §6 typed tag grammar, transcribed from the spec:
`<<` TYPE `_` `[0-9]+` `>>` with TYPE from the closed set and N positive. -/
def typedClosedGrammar (tag : Str) : Bool :=
  "<<".data.isPrefixOf tag &&
    closedTypes.contains ((tag.drop 2).takeWhile Char.isUpper) &&
    decide ((((tag.drop 2).dropWhile Char.isUpper).head?) = some '_') &&
    !((((tag.drop 2).dropWhile Char.isUpper).drop 1).takeWhile Char.isDigit).isEmpty &&
    decide (1 ≤ digitsToNat
      ((((tag.drop 2).dropWhile Char.isUpper).drop 1).takeWhile Char.isDigit)) &&
    decide ((((tag.drop 2).dropWhile Char.isUpper).drop 1).dropWhile Char.isDigit
      = ">>".data)

/-- The full §6 tag grammar the claim asserts for every key of `tags`. -/
def claimTagGrammar (tag : Str) : Bool :=
  personTagGrammar tag || typedClosedGrammar tag

/-- The alternate person form `<NAME INITIALS[N]>` (§6 calls it the
backward-compatibility form) that audit.audit_redacted and
verifier._apply_findings actually create. -/
def nameFormGrammar (tag : Str) : Bool :=
  "<NAME ".data.isPrefixOf tag &&
    !((tag.drop 6).takeWhile Char.isUpper).isEmpty &&
    decide ((((tag.drop 6).dropWhile Char.isUpper).dropWhile Char.isDigit) = ['>'])

/-- A typed tag with an arbitrary label name made of capitals and
underscores (the Redactor emits `<<ID_NUMBER_N>>` and `<<ADDRESS_N>>`, and
the Verifier emits `<<TYPE_N>>` for whatever entity type the cloud
returns). -/
def typedAnyGrammar (tag : Str) : Bool :=
  "<<".data.isPrefixOf tag &&
    ">>".data.isPrefixOf (tag.drop 2).reverse &&
    !((((tag.drop 2).reverse.drop 2).takeWhile Char.isDigit).isEmpty) &&
    decide ((((tag.drop 2).reverse.drop 2).dropWhile Char.isDigit).head? = some '_') &&
    !(((((tag.drop 2).reverse.drop 2).dropWhile Char.isDigit).drop 1).isEmpty) &&
    ((((tag.drop 2).reverse.drop 2).dropWhile Char.isDigit).drop 1).all
      (fun c => c.isUpper || c = '_')

/-- The extended grammar that the code actually maintains across stages. -/
def extTagGrammar (tag : Str) : Bool :=
  personTagGrammar tag || typedAnyGrammar tag || nameFormGrammar tag

lemma isPrefixOf_append_self [DecidableEq α] (l1 l2 : List α) :
    l1.isPrefixOf (l1 ++ l2) = true := by
  induction l1 with
  | nil => simp [List.isPrefixOf]
  | cons x xs ih => simp [List.isPrefixOf, ih]

lemma takeWhile_dropWhile_append (p : Char → Bool) (l1 l2 : Str)
    (h1 : l1.all p = true) (h2 : ∀ c, l2.head? = some c → p c = false) :
    (l1 ++ l2).takeWhile p = l1 ∧ (l1 ++ l2).dropWhile p = l2 := by
  induction l1 with
  | nil =>
    cases l2 with
    | nil => simp
    | cons c cs =>
      have hc := h2 c rfl
      simp [List.takeWhile_cons, List.dropWhile_cons, hc]
  | cons x xs ih =>
    simp only [List.all_cons, Bool.and_eq_true] at h1
    have := ih h1.2
    simp [List.takeWhile_cons, List.dropWhile_cons, h1.1, this.1, this.2]

lemma digitChar_facts (d : Nat) :
    (digitChar d).isDigit = true ∧ (digitChar d).isUpper = false := by
  by_cases h : d < 10
  · interval_cases d <;> exact ⟨by decide, by decide⟩
  · have hd : digitChar d = '0' := by
      unfold digitChar
      exact List.getD_eq_default _ _ (by simpa using Nat.le_of_not_lt h)
    rw [hd]
    exact ⟨by decide, by decide⟩

lemma natStrAux_mem (fuel n : Nat) :
    ∀ c ∈ natStrAux fuel n, ∃ d, c = digitChar d := by
  induction fuel generalizing n with
  | zero => intro c hc; simp [natStrAux] at hc
  | succ m ih =>
    intro c hc
    rw [natStrAux] at hc
    by_cases h : n < 10
    · rw [if_pos h] at hc
      simp only [List.mem_singleton] at hc
      exact ⟨n, hc⟩
    · rw [if_neg h] at hc
      rcases List.mem_append.mp hc with h1 | h1
      · exact ih _ c h1
      · simp only [List.mem_singleton] at h1
        exact ⟨n % 10, h1⟩

lemma natStr_mem_digit (n : Nat) :
    ∀ c ∈ natStr n, c.isDigit = true ∧ c.isUpper = false := by
  intro c hc
  obtain ⟨d, hd⟩ := natStrAux_mem (n + 1) n c hc
  rw [hd]
  exact digitChar_facts d

lemma natStr_ne_nil (n : Nat) : natStr n ≠ [] := by
  rw [natStr, natStrAux]
  by_cases h : n < 10
  · rw [if_pos h]
    exact List.cons_ne_nil _ _
  · rw [if_neg h]
    intro hcontra
    exact absurd (List.append_eq_nil.mp hcontra).2 (List.cons_ne_nil _ _)

lemma head?_mem {l : List α} {c : α} (h : l.head? = some c) : c ∈ l := by
  cases l with
  | nil => simp at h
  | cons x xs =>
    simp only [List.head?_cons, Option.some.injEq] at h
    rw [← h]
    exact List.mem_cons_self _ _

/-- The `<NAME …>` tags created by the audit and verifier loops satisfy the
alternate form grammar whenever the initials are nonempty capitals and the
suffix is a digit string. -/
lemma nameFormGrammar_mk (initials ds : Str) (hne : initials ≠ [])
    (hup : initials.all Char.isUpper = true)
    (hds : ∀ c ∈ ds, c.isDigit = true ∧ c.isUpper = false) :
    nameFormGrammar ("<NAME ".data ++ initials ++ ds ++ ">".data) = true := by
  rw [nameFormGrammar]
  rw [List.append_assoc, List.append_assoc]
  have hdrop : ("<NAME ".data ++ (initials ++ (ds ++ ">".data))).drop 6 =
      initials ++ (ds ++ ">".data) :=
    List.drop_left "<NAME ".data (initials ++ (ds ++ ">".data))
  rw [hdrop]
  have hbody := takeWhile_dropWhile_append Char.isUpper initials (ds ++ ">".data) hup
    (by
      intro c hc
      rcases List.mem_append.mp (head?_mem hc) with h1 | h1
      · exact (hds c h1).2
      · simp only [List.mem_singleton] at h1
        rw [h1]
        rfl)
  rw [hbody.1, hbody.2]
  have htail := takeWhile_dropWhile_append Char.isDigit ds ">".data
    (by
      rw [List.all_eq_true]
      intro c hc
      exact (hds c hc).1)
    (by
      intro c hc
      simp only [List.head?_cons, Option.some.injEq] at hc
      rw [← hc]
      rfl)
  rw [htail.2]
  have hie : initials.isEmpty = false := by
    cases initials with
    | nil => exact absurd rfl hne
    | cons _ _ => rfl
  simp [hie, isPrefixOf_append_self]

/-- The `<<TYPE_N>>` tags created by the verifier loop satisfy the
underscore-tolerant typed grammar whenever the type name is a nonempty
string of capitals and underscores and the suffix is a nonempty digit
string. -/
lemma typedAnyGrammar_mk (ty ds : Str) (hne : ty ≠ [])
    (hty : ty.all (fun c => c.isUpper || c = '_') = true)
    (hds : ∀ c ∈ ds, c.isDigit = true ∧ c.isUpper = false) (hdsne : ds ≠ []) :
    typedAnyGrammar ("<<".data ++ ty ++ "_".data ++ ds ++ ">>".data) = true := by
  rw [typedAnyGrammar]
  rw [List.append_assoc, List.append_assoc, List.append_assoc]
  have hdrop : ("<<".data ++ (ty ++ ("_".data ++ (ds ++ ">>".data)))).drop 2 =
      ty ++ ("_".data ++ (ds ++ ">>".data)) :=
    List.drop_left "<<".data (ty ++ ("_".data ++ (ds ++ ">>".data)))
  rw [hdrop]
  have hrev : (ty ++ ("_".data ++ (ds ++ ">>".data))).reverse =
      '>' :: '>' :: (ds.reverse ++ '_' :: ty.reverse) := by
    simp [List.reverse_append]
  rw [hrev]
  have hdrop2 : (('>' :: '>' :: (ds.reverse ++ '_' :: ty.reverse)) : Str).drop 2 =
      ds.reverse ++ '_' :: ty.reverse := rfl
  rw [hdrop2]
  have htail := takeWhile_dropWhile_append Char.isDigit ds.reverse ('_' :: ty.reverse)
    (by
      rw [List.all_eq_true]
      intro c hc
      exact (hds c (List.mem_reverse.mp hc)).1)
    (by
      intro c hc
      simp only [List.head?_cons, Option.some.injEq] at hc
      rw [← hc]
      rfl)
  rw [htail.1, htail.2]
  have hie1 : ds.reverse.isEmpty = false := by
    cases hd : ds with
    | nil => exact absurd hd hdsne
    | cons x xs => simp [hd]
  have hie2 : ty.reverse.isEmpty = false := by
    cases ht : ty with
    | nil => exact absurd ht hne
    | cons x xs => simp [ht]
  have hall : ty.reverse.all (fun c => c.isUpper || c = '_') = true := by
    rw [List.all_eq_true]
    intro c hc
    rw [List.all_eq_true] at hty
    exact hty c (List.mem_reverse.mp hc)
  simp [hie1, hie2, hall]

lemma dictKeys_dictSet (d : List (Str × α)) (k : Str) (v : α) :
    ∀ k' ∈ dictKeys (dictSet d k v), k' ∈ dictKeys d ∨ k' = k := by
  intro k' h
  rw [dictSet] at h
  by_cases hc : dictContains d k
  · rw [if_pos hc] at h
    rw [dictKeys, List.map_map] at h
    obtain ⟨p, hp, hpk⟩ := List.mem_map.mp h
    by_cases hpk2 : p.1 = k
    · right
      simp only [Function.comp_apply, if_pos hpk2] at hpk
      exact hpk.symm
    · left
      simp only [Function.comp_apply, if_neg hpk2] at hpk
      rw [← hpk]
      exact List.mem_map.mpr ⟨p, hp, rfl⟩
  · rw [if_neg hc] at h
    rw [dictKeys, List.map_append] at h
    rcases List.mem_append.mp h with h1 | h1
    · exact Or.inl h1
    · simp only [List.map_cons, List.map_nil, List.mem_singleton] at h1
      exact Or.inr h1

lemma dictValues_dictSet (d : List (Str × α)) (k : Str) (v : α) :
    ∀ v' ∈ dictValues (dictSet d k v), v' ∈ dictValues d ∨ v' = v := by
  intro v' h
  rw [dictSet] at h
  by_cases hc : dictContains d k
  · rw [if_pos hc] at h
    rw [dictValues, List.map_map] at h
    obtain ⟨p, hp, hpv⟩ := List.mem_map.mp h
    by_cases hpk2 : p.1 = k
    · right
      simp only [Function.comp_apply, if_pos hpk2] at hpv
      exact hpv.symm
    · left
      simp only [Function.comp_apply, if_neg hpk2] at hpv
      rw [← hpv]
      exact List.mem_map.mpr ⟨p, hp, rfl⟩
  · rw [if_neg hc] at h
    rw [dictValues, List.map_append] at h
    rcases List.mem_append.mp h with h1 | h1
    · exact Or.inl h1
    · simp only [List.map_cons, List.map_nil, List.mem_singleton] at h1
      exact Or.inr h1

/-- The `<NAME …>` tag built by the loops (with or without the collision
number) satisfies the extended grammar. -/
lemma extTagGrammar_nameTag (initials : Str) (n : Nat) (hne : initials ≠ [])
    (hup : initials.all Char.isUpper = true) :
    extTagGrammar
        (if n > 1 then "<NAME ".data ++ initials ++ natStr n ++ ">".data
         else "<NAME ".data ++ initials ++ ">".data) = true := by
  rw [extTagGrammar]
  by_cases hn : n > 1
  · rw [if_pos hn]
    rw [nameFormGrammar_mk initials (natStr n) hne hup (natStr_mem_digit n)]
    simp
  · rw [if_neg hn]
    have h := nameFormGrammar_mk initials [] hne hup (by intro c hc; simp at hc)
    rw [List.append_nil] at h
    rw [h]
    simp

/-- The audit apply loop preserves the extended grammar of tag keys and of
person-map values, provided every finding yields nonempty all-capital
initials. -/
lemma auditApplyLoop_grammar :
    ∀ (findings : List Str) (patched : Str) (tags persons : List (Str × Str))
      (initialsMax : List (Str × Nat)),
      (∀ k ∈ dictKeys tags, extTagGrammar k = true) →
      (∀ v ∈ dictValues persons, extTagGrammar v = true) →
      (∀ f ∈ findings, makeInitials f ≠ [] ∧ (makeInitials f).all Char.isUpper = true) →
      (∀ k ∈ dictKeys (auditApplyLoop findings patched tags persons initialsMax).2.1,
          extTagGrammar k = true) ∧
        (∀ v ∈ dictValues (auditApplyLoop findings patched tags persons initialsMax).2.2,
          extTagGrammar v = true) := by
  intro findings
  induction findings with
  | nil =>
    intro patched tags persons initialsMax hk hv _
    exact ⟨hk, hv⟩
  | cons f fs ih =>
    intro patched tags persons initialsMax hk hv hf
    have hffs : ∀ g ∈ fs, makeInitials g ≠ [] ∧ (makeInitials g).all Char.isUpper = true :=
      fun g hg => hf g (List.mem_cons_of_mem _ hg)
    rw [auditApplyLoop]
    by_cases h1 : (strContains f "<NAME ".data || strContains f "<<".data) = true
    · rw [if_pos h1]
      exact ih patched tags persons initialsMax hk hv hffs
    · rw [if_neg h1]
      by_cases h2 : (dictValues tags).contains f = true
      · rw [if_pos h2]
        exact ih patched tags persons initialsMax hk hv hffs
      · rw [if_neg h2]
        by_cases h3 : (!(strContains patched f)) = true
        · rw [if_pos h3]
          exact ih patched tags persons initialsMax hk hv hffs
        · rw [if_neg h3]
          cases hfind : persons.find?
              (fun p => (splitWs (lowerStr p.1)).contains (lowerStr f)) with
          | some p =>
            simp only [hfind]
            have hp2 : extTagGrammar p.2 = true :=
              hv p.2 (List.mem_map.mpr ⟨p, List.mem_of_find?_eq_some hfind, rfl⟩)
            refine ih _ _ _ _ ?_ ?_ hffs
            · intro k hkmem
              rcases dictKeys_dictSet tags p.2 f k hkmem with hmem | heq
              · exact hk k hmem
              · rw [heq]
                exact hp2
            · intro v hvmem
              rcases dictValues_dictSet persons f p.2 v hvmem with hmem | heq
              · exact hv v hmem
              · rw [heq]
                exact hp2
          | none =>
            simp only [hfind]
            have hshape := hf f (List.mem_cons_self _ _)
            have htag := extTagGrammar_nameTag (makeInitials f)
              (cntGet (cntIncr initialsMax (makeInitials f)) (makeInitials f))
              hshape.1 hshape.2
            refine ih _ _ _ _ ?_ ?_ hffs
            · intro k hkmem
              rcases dictKeys_dictSet tags _ f k hkmem with hmem | heq
              · exact hk k hmem
              · rw [heq]
                exact htag
            · intro v hvmem
              rcases dictValues_dictSet persons f _ v hvmem with hmem | heq
              · exact hv v hmem
              · rw [heq]
                exact htag

/-- The verifier patch loop preserves the extended grammar of tag keys,
provided every PERSON finding yields nonempty capital initials and every
entity type is a nonempty string of capitals. -/
lemma applyFindingsLoop_grammar :
    ∀ (findings : List FindingM) (patched : Str) (tags persons : List (Str × Str))
      (typeMax initialsMax : List (Str × Nat)),
      (∀ k ∈ dictKeys tags, extTagGrammar k = true) →
      (∀ f ∈ findings, f.entityType = "PERSON".data →
        makeInitials f.text ≠ [] ∧ (makeInitials f.text).all Char.isUpper = true) →
      (∀ f ∈ findings, f.entityType ≠ [] ∧ f.entityType.all Char.isUpper = true) →
      ∀ k ∈ dictKeys
          (applyFindingsLoop findings patched tags persons typeMax initialsMax).2.1,
        extTagGrammar k = true := by
  intro findings
  induction findings with
  | nil =>
    intro patched tags persons typeMax initialsMax hk _ _
    exact hk
  | cons f fs ih =>
    intro patched tags persons typeMax initialsMax hk hf hty
    have hffs := fun g hg => hf g (List.mem_cons_of_mem _ hg)
    have htyfs := fun g hg => hty g (List.mem_cons_of_mem _ hg)
    rw [applyFindingsLoop]
    by_cases h1 : (strContains f.text "<NAME ".data || strContains f.text "<<".data ||
        strContains f.text ">>".data) = true
    · rw [if_pos h1]
      exact ih patched tags persons typeMax initialsMax hk hffs htyfs
    · rw [if_neg h1]
      by_cases h2 : (dictValues tags).contains f.text = true
      · rw [if_pos h2]
        exact ih patched tags persons typeMax initialsMax hk hffs htyfs
      · rw [if_neg h2]
        by_cases h3 : (!(strContains patched f.text)) = true
        · rw [if_pos h3]
          exact ih patched tags persons typeMax initialsMax hk hffs htyfs
        · rw [if_neg h3]
          by_cases h4 : (f.entityType = "PERSON".data)
          · rw [if_pos h4]
            have hshape := hf f (List.mem_cons_self _ _) h4
            have htag := extTagGrammar_nameTag (makeInitials f.text)
              (cntGet (cntIncr initialsMax (makeInitials f.text)) (makeInitials f.text))
              hshape.1 hshape.2
            refine ih _ _ _ _ _ ?_ hffs htyfs
            intro k hkmem
            rcases dictKeys_dictSet tags _ f.text k hkmem with hmem | heq
            · exact hk k hmem
            · rw [heq]
              exact htag
          · rw [if_neg h4]
            have hshape := hty f (List.mem_cons_self _ _)
            have htag : extTagGrammar
                ("<<".data ++ f.entityType ++ "_".data
                  ++ natStr (cntGet (cntIncr typeMax f.entityType) f.entityType)
                  ++ ">>".data) = true := by
              rw [extTagGrammar]
              rw [typedAnyGrammar_mk f.entityType _ hshape.1
                (by
                  rw [List.all_eq_true]
                  intro c hc
                  rw [List.all_eq_true] at hshape
                  simp [hshape.2 c hc])
                (natStr_mem_digit _) (natStr_ne_nil _)]
              simp
            refine ih _ _ _ _ _ ?_ hffs htyfs
            intro k hkmem
            rcases dictKeys_dictSet tags _ f.text k hkmem with hmem | heq
            · exact hk k hmem
            · rw [heq]
              exact htag

/-- C6: for every input text and mapping (and any segmenter output, canary
set and categorized error), when the verification call raises a VerifyError
the verifier returns exactly the input text and the input mapping. -/
theorem c6_verify_graceful_degradation (text : Str) (mapping : Mapping)
    (rawSentences : List (Str × Nat × Nat)) (canaryIds : List Str)
    (e : VerifyErrorM) :
    verifyAndPatch text mapping rawSentences canaryIds (.error e) = (text, mapping) := by
  rw [verifyAndPatch]
  by_cases h : (shardText (neutralizeTags text mapping).1 rawSentences).isEmpty
  · rw [if_pos h]
  · rw [if_neg h]

/-- The claim's auditor input: the redacted text with a `<<SJ>>`-shaped tag. -/
def c3ClaimText : Str := "Meeting with <<SJ>> and Robert tomorrow.".data

/-- The claim's auditor mapping. -/
def c3ClaimMapping : Mapping :=
  ⟨[("<<SJ>>".data, "Steve Johnson".data)],
   [("Steve Johnson".data, "<<SJ>>".data)]⟩

/-- The same scenario in the `<NAME …>` tag form the auditor actually
anchors on. -/
def c3AltText : Str := "Meeting with <NAME SJ> and Robert tomorrow.".data

/-- The mapping for `c3AltText`. -/
def c3AltMapping : Mapping :=
  ⟨[("<NAME SJ>".data, "Steve Johnson".data)],
   [("Steve Johnson".data, "<NAME SJ>".data)]⟩

/-- C3 counterexample: on the claim's own example — `<<SJ>>`-shaped tag —
the auditor finds nothing (its conjunction detector anchors exclusively on
`<NAME …>` tags and a single capitalized word is no phrase), so the text
comes back unchanged: no `<<R>>` tag is created and the claimed output text
is not produced. -/
theorem c3_auditor_counterexample :
    auditRedacted [] c3ClaimText c3ClaimMapping = (c3ClaimText, c3ClaimMapping) ∧
      c3ClaimText ≠ "Meeting with <<SJ>> and <<R>> tomorrow.".data ∧
      dictContains (auditRedacted [] c3ClaimText c3ClaimMapping).2.tags "<<R>>".data
        = false := by
  refine ⟨by decide, by decide, by decide⟩

/-- C3 (amended): the auditor creates a new cluster with the Redactor's
initials-collision rule, continuing the counter reconstructed from the
mapping, but it anchors on — and emits — the alternate `<NAME INITIALS[N]>`
tag form: auditing "Meeting with <NAME SJ> and Robert tomorrow." with tags
{"<NAME SJ>": "Steve Johnson"} yields the new tag `<NAME R>` and the text
"Meeting with <NAME SJ> and <NAME R> tomorrow."; `<<…>>`-anchored
conjunctions are not detected. -/
theorem c3_auditor_alt_form :
    auditRedacted [] c3AltText c3AltMapping =
      ("Meeting with <NAME SJ> and <NAME R> tomorrow.".data,
        ⟨[("<NAME SJ>".data, "Steve Johnson".data), ("<NAME R>".data, "Robert".data)],
         [("Steve Johnson".data, "<NAME SJ>".data), ("Robert".data, "<NAME R>".data)]⟩) := by
  decide

/-- C4 counterexample: two stages violate the §6 grammar.  The auditor run
on `c3AltText` adds the key `<NAME R>`, which matches neither §6 grammar;
and the Redactor itself, given an ID_NUMBER entity, emits the key
`<<ID_NUMBER_1>>`, whose type is not in §6's closed set (ID) and which its
typed grammar does not generate. -/
theorem c4_grammar_counterexample :
    (dictContains (auditRedacted [] c3AltText c3AltMapping).2.tags "<NAME R>".data
        = true ∧
      claimTagGrammar "<NAME R>".data = false) ∧
      (dictKeys (redact "ID D1234567".data
          [⟨"D1234567".data, "ID_NUMBER".data, 3, 11⟩]).2.tags
          = ["<<ID_NUMBER_1>>".data] ∧
        claimTagGrammar "<<ID_NUMBER_1>>".data = false) := by
  refine ⟨⟨by decide, by decide⟩, ⟨by decide, by decide⟩⟩

/-- C4 (amended): the invariant the code actually maintains is an extended
grammar: `<<INITIALS[N]>>` person keys, `<<LABEL_N>>` typed keys whose label
may contain underscores (the Redactor uses the label names ID_NUMBER and
ADDRESS, not §6's ID/ADDR), and the alternate `<NAME INITIALS[N]>` person
form created by the Auditor and the Verifier patch step.  Both patch loops
preserve it: every key of the output `tags` satisfies the extended grammar
whenever every existing key does (for the auditor, every `persons` value
too, since it reuses them as keys), every finding yields nonempty
all-capital initials, and every verifier entity type is a nonempty string
of capitals. -/
theorem c4_extended_tag_grammar :
    (∀ (findings : List Str) (patched : Str) (tags persons : List (Str × Str))
        (initialsMax : List (Str × Nat)),
      (∀ k ∈ dictKeys tags, extTagGrammar k = true) →
      (∀ v ∈ dictValues persons, extTagGrammar v = true) →
      (∀ f ∈ findings, makeInitials f ≠ [] ∧ (makeInitials f).all Char.isUpper = true) →
      ∀ k ∈ dictKeys (auditApplyLoop findings patched tags persons initialsMax).2.1,
        extTagGrammar k = true) ∧
      (∀ (findings : List FindingM) (patched : Str) (tags persons : List (Str × Str))
          (typeMax initialsMax : List (Str × Nat)),
        (∀ k ∈ dictKeys tags, extTagGrammar k = true) →
        (∀ f ∈ findings, f.entityType = "PERSON".data →
          makeInitials f.text ≠ [] ∧ (makeInitials f.text).all Char.isUpper = true) →
        (∀ f ∈ findings, f.entityType ≠ [] ∧ f.entityType.all Char.isUpper = true) →
        ∀ k ∈ dictKeys
            (applyFindingsLoop findings patched tags persons typeMax initialsMax).2.1,
          extTagGrammar k = true) :=
  ⟨fun findings patched tags persons initialsMax hk hv hf =>
      (auditApplyLoop_grammar findings patched tags persons initialsMax hk hv hf).1,
    applyFindingsLoop_grammar⟩

/-- Witness for C4 at concrete inputs: the auditor loop adding "Robert" to a
mapping with key `<NAME SJ>`, and the verifier loop adding an SSN finding,
both keep every key inside the extended grammar. -/
theorem c4_extended_tag_grammar_witness :
    ((∀ k ∈ dictKeys [("<NAME SJ>".data, "Steve Johnson".data)],
        extTagGrammar k = true) ∧
      (∀ k ∈ dictKeys
          (auditApplyLoop ["Robert".data] "Robert called.".data
            [("<NAME SJ>".data, "Steve Johnson".data)]
            [("Steve Johnson".data, "<NAME SJ>".data)] [("SJ".data, 1)]).2.1,
        extTagGrammar k = true)) ∧
      (∀ k ∈ dictKeys
          (applyFindingsLoop [⟨"s1".data, "123-45-6789".data, "SSN".data⟩]
            "Call 123-45-6789 now.".data [] [] [] []).2.1,
        extTagGrammar k = true) :=
  ⟨⟨by decide,
    c4_extended_tag_grammar.1 ["Robert".data] "Robert called.".data
      [("<NAME SJ>".data, "Steve Johnson".data)]
      [("Steve Johnson".data, "<NAME SJ>".data)] [("SJ".data, 1)]
      (by decide) (by decide) (by decide)⟩,
    c4_extended_tag_grammar.2 [⟨"s1".data, "123-45-6789".data, "SSN".data⟩]
      "Call 123-45-6789 now.".data [] [] [] []
      (by decide) (by decide) (by decide)⟩

/-- The Redactor output on which the auditor is not idempotent. -/
def c5Text : Str := "Alice Baker and Robert went home today.".data

/-- C5 counterexample: `("Alice Baker and Robert went home today.", empty
mapping)` is a Redactor output (the entity list was empty), the first audit
pass tags the capitalized phrase "Alice Baker" as `<NAME AB>`, and only then
does the orphaned-conjunction detector see `<NAME AB> and Robert` — so the
second audit pass tags "Robert" too, and audit∘audit ≠ audit there. -/
theorem c5_audit_not_idempotent :
    redact c5Text [] = (c5Text, ⟨[], []⟩) ∧
      auditRedacted [] (auditRedacted [] c5Text ⟨[], []⟩).1
          (auditRedacted [] c5Text ⟨[], []⟩).2 ≠
        auditRedacted [] c5Text ⟨[], []⟩ := by
  refine ⟨by decide, by decide⟩

/-- C5 (amended): the auditor is idempotent on every input it leaves
unchanged (no surviving findings) — a sufficient condition, not a
characterization, since a first pass that does change the text may still
reach a fixpoint at once.  On Redactor outputs in general the auditor is
not idempotent: the `<NAME …>` tags the first pass inserts can enable the
orphaned-conjunction detector, so a second pass can apply further
redactions (see the counterexample). -/
theorem c5_audit_idempotent_on_clean (blocklist : List Str) (t : Str) (m : Mapping)
    (h : auditRedacted blocklist t m = (t, m)) :
    auditRedacted blocklist (auditRedacted blocklist t m).1
        (auditRedacted blocklist t m).2 =
      auditRedacted blocklist t m := by
  rw [h]
  exact h

/-- Witness for C5 at a concrete input: the empty text with the empty
mapping is audit-clean, and the double audit equals the single one there. -/
theorem c5_audit_idempotent_on_clean_witness :
    auditRedacted [] [] ⟨[], []⟩ = ([], ⟨[], []⟩) ∧
      auditRedacted [] (auditRedacted [] [] ⟨[], []⟩).1
          (auditRedacted [] [] ⟨[], []⟩).2 =
        auditRedacted [] [] ⟨[], []⟩ :=
  ⟨by decide, c5_audit_idempotent_on_clean [] [] ⟨[], []⟩ (by decide)⟩

end PiiBuddy
